import Mathlib

/-!
Verification of the multiply-accumulate kernels of the compint library
(`src/main/native/int-9.c`, `int9.c`, `multiply-core.c`, `multiply-core-16.c`).

All four C functions implement schoolbook long multiplication of two
most-significant-first digit runs in a fixed base, accumulating the product
into a caller-supplied result buffer at a digit shift.

The embedding models digit buffers as total maps `ℤ → ℤ` (a write outside the
declared window is then visible in the model exactly where the C code would
touch memory out of bounds).  All machine arithmetic of the kernels is
embedded with `Int.tdiv` / `Int.tmod`, which are precisely C's truncating
`/` and `%` on signed integers; the narrowing casts `(jint)` / `(INT32)` /
`(jlong)` in the sources are identities whenever the surrounding values fit
the digit range, which the range theorems below establish.
-/

namespace Compint

/-- Digit base of the 32-bit-digit kernels (`#define BASE 1000000000`). -/
def BASE9 : ℤ := 1000000000

/-- Digit base of the 64-bit-digit kernel (`#define BASE 10000000000000000`). -/
def BASE16 : ℤ := 10000000000000000

/-- A digit buffer: total map from (signed) index to cell content. -/
abbrev Acc := ℤ → ℤ

/-- Store `v` at index `k` (the embedding of `result[k] = v`). -/
def writeA (a : Acc) (k v : ℤ) : Acc := fun x => if x = k then v else a x

/-- One iteration of the shared inner-loop body of all four kernels:
`product = carry + lhsValue * rhsValue; carry = product / BASE;
sum = product % BASE + result[k]; if (sum >= BASE) { sum -= BASE; carry++; }`.
Returns the updated `(carry, sum)`. -/
def innerStep (B rhsValue carry lhsValue resk : ℤ) : ℤ × ℤ :=
  let product : ℤ := carry + lhsValue * rhsValue
  let carry1 : ℤ := product.tdiv B
  let sum : ℤ := product.tmod B + resk
  if sum ≥ B then (carry1 + 1, sum - B) else (carry1, sum)

/-- The shared inner loop of all four kernels:
`for (j = lhsMax; j >= lhsOffset; --j, --k) { <innerStep>; result[k] = sum; }`.
The fuel argument is the trip count `lhsMax - lhsOffset + 1`; `j` and `k`
descend together.  Returns final `(carry, k, result)`. -/
def innerLoop (B : ℤ) (lhs : Acc) (rhsValue : ℤ) :
    ℕ → ℤ → ℤ → ℤ → Acc → ℤ × ℤ × Acc
  | 0, _j, k, carry, result => (carry, k, result)
  | n + 1, j, k, carry, result =>
    let st := innerStep B rhsValue carry (lhs j) (result k)
    innerLoop B lhs rhsValue n (j - 1) (k - 1) st.1 (writeA result k st.2)

/-- The outer loop of `int-9.c` / `int9.c`:
`for (i = rhsMax; i >= rhsOffset; --i, ++shift) { carry = 0; rhsValue = rhs[i];
k = resultLength - shift; <inner loop>; result[k] = carry; }`.
Note the final carry is *assigned* to `result[k]` unconditionally (the debug
build asserts `result[k] == 0` just before).  Fuel is the number of rhs
digits still to process. -/
def outerLoop (B : ℤ) (lhs : Acc) (lhsOffset lhsMax resultLength : ℤ) (rhs : Acc) :
    ℕ → ℤ → ℤ → Acc → Acc
  | 0, _i, _shift, result => result
  | n + 1, i, shift, result =>
    let rhsValue : ℤ := rhs i
    let k : ℤ := resultLength - shift
    let st := innerLoop B lhs rhsValue (lhsMax - lhsOffset + 1).toNat lhsMax k 0 result
    outerLoop B lhs lhsOffset lhsMax resultLength rhs n (i - 1) (shift + 1)
      (writeA st.2.2 st.2.1 st.1)

/-- `Java_philippag_lib_common_math_compint_Int9N_multiplyCore` as defined in
`int-9.c` and (identically, modulo the `_USE_ARRAY_HACK` access path) in
`int9.c`: the explicit-shift, base-10^9 kernel. -/
def Int9N_multiplyCore (result : Acc) (resultLength shift : ℤ)
    (lhs : Acc) (lhsOffset lhsMax : ℤ) (rhs : Acc) (rhsOffset rhsMax : ℤ) : Acc :=
  outerLoop BASE9 lhs lhsOffset lhsMax resultLength rhs
    (rhsMax - rhsOffset + 1).toNat rhsMax shift result

/-- The outer loop of `multiply-core.c` / `multiply-core-16.c`: `carry` is
declared outside the loop and threaded through; the final carry of a row is
written back only `if (carry > 0) { result[k] = carry; carry = 0; }`.
Returns the threaded carry together with the buffer. -/
def outerLoopC (B : ℤ) (lhs : Acc) (lhsOffset lhsMax resultLength : ℤ) (rhs : Acc) :
    ℕ → ℤ → ℤ → ℤ → Acc → ℤ × Acc
  | 0, _i, _shift, carry, result => (carry, result)
  | n + 1, i, shift, carry, result =>
    let rhsValue : ℤ := rhs i
    let k : ℤ := resultLength - shift
    let st := innerLoop B lhs rhsValue (lhsMax - lhsOffset + 1).toNat lhsMax k carry result
    let next : ℤ × Acc :=
      if st.1 > 0 then (0, writeA st.2.2 st.2.1 st.1) else (st.1, st.2.2)
    outerLoopC B lhs lhsOffset lhsMax resultLength rhs n (i - 1) (shift + 1) next.1 next.2

/-- `Java_philippag_lib_common_math_compint_Int9N_multiplyCore` as defined in
`multiply-core.c`: the computed-length base-10^9 kernel
(`resultLength = lhsLength + rhsLength`, `shift` starts at 1). -/
def Int9N_multiplyCore_len (result : Acc) (lhs : Acc) (lhsOffset lhsLength : ℤ)
    (rhs : Acc) (rhsOffset rhsLength : ℤ) : Acc :=
  let resultLength : ℤ := lhsLength + rhsLength
  let lhsMax : ℤ := lhsOffset + lhsLength - 1
  let rhsMax : ℤ := rhsOffset + rhsLength - 1
  (outerLoopC BASE9 lhs lhsOffset lhsMax resultLength rhs
    (rhsMax - rhsOffset + 1).toNat rhsMax 1 0 result).2

/-- `Java_philippag_lib_common_math_compint_Int16N_multiplyCore` as defined in
`multiply-core-16.c`: identical control flow to `multiply-core.c` with
base 10^16 and 128-bit intermediates. -/
def Int16N_multiplyCore (result : Acc) (lhs : Acc) (lhsOffset lhsLength : ℤ)
    (rhs : Acc) (rhsOffset rhsLength : ℤ) : Acc :=
  let resultLength : ℤ := lhsLength + rhsLength
  let lhsMax : ℤ := lhsOffset + lhsLength - 1
  let rhsMax : ℤ := rhsOffset + rhsLength - 1
  (outerLoopC BASE16 lhs lhsOffset lhsMax resultLength rhs
    (rhsMax - rhsOffset + 1).toNat rhsMax 1 0 result).2

/-- Value of the most-significant-first digit run
`f off, f (off+1), …, f (off+n-1)` in base `B`. -/
def runVal (B : ℤ) (f : Acc) (off : ℤ) : ℕ → ℤ
  | 0 => 0
  | n + 1 => runVal B f off n * B + f (off + n)

/-! ### Basic facts about `runVal` and `writeA` -/

theorem writeA_same (a : Acc) (k v : ℤ) : writeA a k v k = v := by
  simp [writeA]

theorem writeA_other (a : Acc) (k v x : ℤ) (h : x ≠ k) : writeA a k v x = a x := by
  simp [writeA, h]

theorem writeA_self (a : Acc) (k : ℤ) : writeA a k (a k) = a := by
  funext x
  by_cases h : x = k <;> simp [writeA, h]

theorem runVal_congr {B : ℤ} {f g : Acc} {off : ℤ} {n : ℕ}
    (h : ∀ t : ℕ, t < n → f (off + t) = g (off + t)) :
    runVal B f off n = runVal B g off n := by
  induction n with
  | zero => rfl
  | succ n ih =>
    simp only [runVal]
    rw [ih fun t ht => h t (Nat.lt_succ_of_lt ht), h n (Nat.lt_succ_self n)]

theorem runVal_split (B : ℤ) (f : Acc) (off : ℤ) (m n : ℕ) :
    runVal B f off (m + n) = runVal B f off m * B ^ n + runVal B f (off + m) n := by
  induction n with
  | zero => simp [runVal]
  | succ n ih =>
    show runVal B f off (m + n + 1) = _
    simp only [runVal, ih]
    push_cast
    ring_nf

theorem runVal_cons (B : ℤ) (f : Acc) (off : ℤ) (n : ℕ) :
    runVal B f off (n + 1) = f off * B ^ n + runVal B f (off + 1) n := by
  have h := runVal_split B f off 1 n
  simpa [runVal, Nat.add_comm 1 n] using h

theorem runVal_zero_run {B : ℤ} {f : Acc} {off : ℤ} {n : ℕ}
    (h : ∀ t : ℕ, t < n → f (off + t) = 0) : runVal B f off n = 0 := by
  induction n with
  | zero => rfl
  | succ n ih =>
    simp only [runVal]
    rw [ih fun t ht => h t (Nat.lt_succ_of_lt ht), h n (Nat.lt_succ_self n)]
    simp

theorem runVal_nonneg {B : ℤ} {f : Acc} {off : ℤ} {n : ℕ} (hB : 0 ≤ B)
    (h : ∀ t : ℕ, t < n → 0 ≤ f (off + t)) : 0 ≤ runVal B f off n := by
  induction n with
  | zero => exact le_refl 0
  | succ n ih =>
    simp only [runVal]
    have h1 := ih fun t ht => h t (Nat.lt_succ_of_lt ht)
    have h2 := h n (Nat.lt_succ_self n)
    positivity

theorem runVal_lt {B : ℤ} {f : Acc} {off : ℤ} {n : ℕ} (hB : 0 < B)
    (h : ∀ t : ℕ, t < n → 0 ≤ f (off + t) ∧ f (off + t) < B) :
    runVal B f off n < B ^ n := by
  induction n with
  | zero => simp [runVal]
  | succ n ih =>
    simp only [runVal]
    have h1 := ih fun t ht => h t (Nat.lt_succ_of_lt ht)
    have h2 := h n (Nat.lt_succ_self n)
    have : runVal B f off n * B + f (off + n) < (runVal B f off n + 1) * B := by
      nlinarith [h2.2]
    calc runVal B f off n * B + f (off + n) < (runVal B f off n + 1) * B := this
    _ ≤ B ^ n * B := by nlinarith
    _ = B ^ (n + 1) := by ring

/-! ### The inner-loop step -/

theorem innerStep_identity (B r c d resk : ℤ) :
    (innerStep B r c d resk).1 * B + (innerStep B r c d resk).2 = c + d * r + resk := by
  have h := Int.tdiv_add_tmod (c + d * r) B
  by_cases hc : (c + d * r).tmod B + resk ≥ B <;>
    simp only [innerStep, hc, if_true, if_false, ite_true, ite_false] <;> linarith

theorem innerStep_range {B c d r resk : ℤ} (hB : 2 ≤ B)
    (hc : 0 ≤ c ∧ c < B) (hd : 0 ≤ d ∧ d < B) (hr : 0 ≤ r ∧ r < B)
    (ha : 0 ≤ resk ∧ resk < B) :
    (0 ≤ (innerStep B r c d resk).1 ∧ (innerStep B r c d resk).1 < B) ∧
      0 ≤ (innerStep B r c d resk).2 ∧ (innerStep B r c d resk).2 < B := by
  have hp0 : 0 ≤ c + d * r := by nlinarith [hc.1, hd.1, hr.1]
  have hpB : c + d * r ≤ B ^ 2 - B := by nlinarith [hd.2, hr.2, hd.1, hr.1, hc.2]
  have hB0 : (0 : ℤ) < B := by linarith
  have htm0 : 0 ≤ (c + d * r).tmod B := by
    rw [Int.tmod_eq_emod hp0 (le_of_lt hB0)]
    exact Int.emod_nonneg _ (ne_of_gt hB0)
  have htmB : (c + d * r).tmod B < B := Int.tmod_lt_of_pos _ hB0
  have hdiv := Int.tdiv_add_tmod (c + d * r) B
  have htd0 : 0 ≤ (c + d * r).tdiv B := Int.tdiv_nonneg hp0 (le_of_lt hB0)
  have htdB : (c + d * r).tdiv B ≤ B - 1 := by nlinarith
  by_cases hcond : (c + d * r).tmod B + resk ≥ B
  · have h1 : 1 ≤ (c + d * r).tmod B := by linarith [ha.2]
    have h2 : (c + d * r).tdiv B < B - 1 := by nlinarith
    simp only [innerStep, hcond, if_pos]
    refine ⟨⟨by linarith, by linarith⟩, by constructor <;> [linarith; linarith [ha.2]]⟩
  · simp only [innerStep, hcond, if_neg, not_false_iff]
    exact ⟨⟨htd0, by linarith⟩, ⟨by linarith [ha.1], by linarith [not_le.mp hcond]⟩⟩

/-! ### Inner-loop invariants -/

theorem innerLoop_k (B : ℤ) (lhs : Acc) (r : ℤ) (n : ℕ) :
    ∀ (j k c : ℤ) (a : Acc), (innerLoop B lhs r n j k c a).2.1 = k - n := by
  induction n with
  | zero => intro j k c a; simp [innerLoop]
  | succ n ih =>
    intro j k c a
    simp only [innerLoop]
    rw [ih]
    push_cast
    ring

theorem innerLoop_frame (B : ℤ) (lhs : Acc) (r : ℤ) (n : ℕ) :
    ∀ (j k c : ℤ) (a : Acc) (x : ℤ), (x ≤ k - n ∨ k < x) →
      (innerLoop B lhs r n j k c a).2.2 x = a x := by
  induction n with
  | zero => intro j k c a x _; simp [innerLoop]
  | succ n ih =>
    intro j k c a x hx
    simp only [innerLoop]
    have hx' : x ≤ (k - 1) - (n : ℤ) ∨ (k - 1) < x := by
      rcases hx with h | h
      · left; push_cast at h ⊢; linarith
      · right; linarith
    rw [ih _ _ _ _ _ hx']
    have hxk : x ≠ k := by
      rcases hx with h | h
      · push_cast at h; intro hh; omega
      · intro hh; omega
    exact writeA_other _ _ _ _ hxk

theorem runVal_succ_top (B : ℤ) (f : Acc) (off : ℤ) (n : ℕ) :
    runVal B f off (n + 1) = runVal B f off n * B + f (off + n) := rfl

theorem innerLoop_val (B : ℤ) (lhs : Acc) (r : ℤ) (n : ℕ) :
    ∀ (j k c : ℤ) (a : Acc),
      (innerLoop B lhs r n j k c a).1 * B ^ n +
          runVal B (innerLoop B lhs r n j k c a).2.2 (k - n + 1) n =
        c + runVal B a (k - n + 1) n + runVal B lhs (j - n + 1) n * r := by
  induction n with
  | zero => intro j k c a; simp [innerLoop, runVal]
  | succ n ih =>
    intro j k c a
    simp only [innerLoop]
    have hA : k - ((n + 1 : ℕ) : ℤ) + 1 = k - n := by push_cast; ring
    have hAj : j - ((n + 1 : ℕ) : ℤ) + 1 = j - n := by push_cast; ring
    rw [hA, hAj]
    have hoff : ∀ g : Acc, runVal B g (k - (n : ℤ)) (n + 1) =
        runVal B g (k - (n : ℤ)) n * B + g k := by
      intro g
      rw [runVal_succ_top]
      have : k - (n : ℤ) + n = k := by ring
      rw [this]
    have hoffj : runVal B lhs (j - (n : ℤ)) (n + 1) =
        runVal B lhs (j - (n : ℤ)) n * B + lhs j := by
      rw [runVal_succ_top]
      have : j - (n : ℤ) + n = j := by ring
      rw [this]
    rw [hoff, hoff, hoffj]
    have hkframe : (innerLoop B lhs r n (j - 1) (k - 1)
        (innerStep B r c (lhs j) (a k)).1
        (writeA a k (innerStep B r c (lhs j) (a k)).2)).2.2 k =
        writeA a k (innerStep B r c (lhs j) (a k)).2 k := by
      exact innerLoop_frame B lhs r n _ _ _ _ k (Or.inr (by linarith))
    rw [hkframe, writeA_same]
    have ih1 := ih (j - 1) (k - 1) (innerStep B r c (lhs j) (a k)).1
      (writeA a k (innerStep B r c (lhs j) (a k)).2)
    have e2 : k - 1 - (n : ℤ) + 1 = k - n := by ring
    have e3 : j - 1 - (n : ℤ) + 1 = j - n := by ring
    rw [e2, e3] at ih1
    have hcong : runVal B (writeA a k (innerStep B r c (lhs j) (a k)).2)
        (k - (n : ℤ)) n = runVal B a (k - (n : ℤ)) n := by
      refine runVal_congr fun t ht => ?_
      refine writeA_other a k _ _ ?_
      have : (t : ℤ) < n := by exact_mod_cast ht
      intro hh
      omega
    rw [hcong] at ih1
    have hid := innerStep_identity B r c (lhs j) (a k)
    linear_combination B * ih1 + hid

theorem innerLoop_congr (B : ℤ) (lhs lhs2 : Acc) (r : ℤ) (n : ℕ) :
    ∀ (j k c : ℤ) (a a2 : Acc),
      (∀ t : ℕ, t < n → lhs (j - t) = lhs2 (j - t)) →
      (∀ t : ℕ, t < n → a (k - t) = a2 (k - t)) →
      (innerLoop B lhs r n j k c a).1 = (innerLoop B lhs2 r n j k c a2).1 ∧
        ∀ t : ℕ, t < n →
          (innerLoop B lhs r n j k c a).2.2 (k - t) =
            (innerLoop B lhs2 r n j k c a2).2.2 (k - t) := by
  induction n with
  | zero => intro j k c a a2 _ _; exact ⟨rfl, fun t ht => absurd ht (Nat.not_lt_zero t)⟩
  | succ n ih =>
    intro j k c a a2 hl hacc
    have hl0 : lhs j = lhs2 j := by simpa using hl 0 (Nat.succ_pos n)
    have ha0 : a k = a2 k := by simpa using hacc 0 (Nat.succ_pos n)
    simp only [innerLoop, hl0, ha0]
    have hrec := ih (j - 1) (k - 1) (innerStep B r c (lhs2 j) (a2 k)).1
      (writeA a k (innerStep B r c (lhs2 j) (a2 k)).2)
      (writeA a2 k (innerStep B r c (lhs2 j) (a2 k)).2) ?_ ?_
    · refine ⟨hrec.1, fun t ht => ?_⟩
      match t with
      | 0 =>
        have h1 := innerLoop_frame B lhs r n (j - 1) (k - 1)
          (innerStep B r c (lhs2 j) (a2 k)).1
          (writeA a k (innerStep B r c (lhs2 j) (a2 k)).2) k (Or.inr (by linarith))
        have h2 := innerLoop_frame B lhs2 r n (j - 1) (k - 1)
          (innerStep B r c (lhs2 j) (a2 k)).1
          (writeA a2 k (innerStep B r c (lhs2 j) (a2 k)).2) k (Or.inr (by linarith))
        simp [h1, h2, writeA_same]
      | t + 1 =>
        have ht' : t < n := by omega
        have := hrec.2 t ht'
        have e : k - 1 - (t : ℤ) = k - ((t + 1 : ℕ) : ℤ) := by push_cast; ring
        rwa [e] at this
    · intro t ht
      have e : j - 1 - (t : ℤ) = j - ((t + 1 : ℕ) : ℤ) := by push_cast; ring
      rw [e]
      exact hl (t + 1) (by omega)
    · intro t ht
      have hne : k - 1 - (t : ℤ) ≠ k := by omega
      rw [writeA_other _ _ _ _ hne, writeA_other _ _ _ _ hne]
      have e : k - 1 - (t : ℤ) = k - ((t + 1 : ℕ) : ℤ) := by push_cast; ring
      rw [e]
      exact hacc (t + 1) (by omega)

theorem innerLoop_range (B : ℤ) (lhs : Acc) (r : ℤ) (hB : 2 ≤ B)
    (hr : 0 ≤ r ∧ r < B) (n : ℕ) :
    ∀ (j k c : ℤ) (a : Acc), 0 ≤ c ∧ c < B →
      (∀ t : ℕ, t < n → 0 ≤ lhs (j - t) ∧ lhs (j - t) < B) →
      (∀ t : ℕ, t < n → 0 ≤ a (k - t) ∧ a (k - t) < B) →
      (0 ≤ (innerLoop B lhs r n j k c a).1 ∧ (innerLoop B lhs r n j k c a).1 < B) ∧
        ∀ t : ℕ, t < n →
          0 ≤ (innerLoop B lhs r n j k c a).2.2 (k - t) ∧
            (innerLoop B lhs r n j k c a).2.2 (k - t) < B := by
  induction n with
  | zero => intro j k c a hc _ _; exact ⟨hc, fun t ht => absurd ht (Nat.not_lt_zero t)⟩
  | succ n ih =>
    intro j k c a hc hl hacc
    have hl0 : 0 ≤ lhs j ∧ lhs j < B := by simpa using hl 0 (Nat.succ_pos n)
    have ha0 : 0 ≤ a k ∧ a k < B := by simpa using hacc 0 (Nat.succ_pos n)
    have hst := innerStep_range hB hc hl0 hr ha0
    simp only [innerLoop]
    have hrec := ih (j - 1) (k - 1) (innerStep B r c (lhs j) (a k)).1
      (writeA a k (innerStep B r c (lhs j) (a k)).2) hst.1 ?_ ?_
    · refine ⟨hrec.1, fun t ht => ?_⟩
      match t with
      | 0 =>
        have h1 := innerLoop_frame B lhs r n (j - 1) (k - 1)
          (innerStep B r c (lhs j) (a k)).1
          (writeA a k (innerStep B r c (lhs j) (a k)).2) k (Or.inr (by linarith))
        simpa [h1, writeA_same] using hst.2
      | t + 1 =>
        have := hrec.2 t (by omega)
        have e : k - 1 - (t : ℤ) = k - ((t + 1 : ℕ) : ℤ) := by push_cast; ring
        rwa [e] at this
    · intro t ht
      have e : j - 1 - (t : ℤ) = j - ((t + 1 : ℕ) : ℤ) := by push_cast; ring
      rw [e]
      exact hl (t + 1) (by omega)
    · intro t ht
      have hne : k - 1 - (t : ℤ) ≠ k := by omega
      rw [writeA_other _ _ _ _ hne]
      have e : k - 1 - (t : ℤ) = k - ((t + 1 : ℕ) : ℤ) := by push_cast; ring
      rw [e]
      exact hacc (t + 1) (by omega)

theorem innerLoop_zero_rhs (B : ℤ) (lhs : Acc) (n : ℕ) :
    ∀ (j k : ℤ) (a : Acc), (∀ t : ℕ, t < n → a (k - t) < B) →
      (innerLoop B lhs 0 n j k 0 a).1 = 0 ∧ (innerLoop B lhs 0 n j k 0 a).2.2 = a := by
  induction n with
  | zero => intro j k a _; exact ⟨rfl, rfl⟩
  | succ n ih =>
    intro j k a hacc
    have ha0 : a k < B := by simpa using hacc 0 (Nat.succ_pos n)
    have hstep : innerStep B 0 0 (lhs j) (a k) = (0, a k) := by
      simp [innerStep, not_le.mpr ha0]
    simp only [innerLoop, hstep]
    rw [writeA_self]
    refine ih (j - 1) (k - 1) a fun t ht => ?_
    have e : k - 1 - (t : ℤ) = k - ((t + 1 : ℕ) : ℤ) := by push_cast; ring
    rw [e]
    exact hacc (t + 1) (by omega)

/-! ### Outer-loop invariants of the explicit-shift kernel (`int-9.c` / `int9.c`) -/

theorem outerLoop_frame (B : ℤ) (lhs : Acc) (lhsOffset lhsMax RL : ℤ) (rhs : Acc)
    (L : ℕ) (hL : (lhsMax - lhsOffset + 1).toNat = L) (n : ℕ) :
    ∀ (i s : ℤ) (a : Acc) (x : ℤ), (x < RL - s - n + 1 - L ∨ RL - s < x) →
      outerLoop B lhs lhsOffset lhsMax RL rhs n i s a x = a x := by
  induction n with
  | zero => intro i s a x _; rfl
  | succ n ih =>
    intro i s a x hx
    simp only [outerLoop]
    rw [hL]
    have hk := innerLoop_k B lhs (rhs i) L lhsMax (RL - s) 0 a
    have hx' : x < RL - (s + 1) - n + 1 - L ∨ RL - (s + 1) < x := by
      rcases hx with h | h
      · left; push_cast at h ⊢; linarith
      · right; linarith
    rw [ih (i - 1) (s + 1) _ x hx']
    have hxo : x ≠ (innerLoop B lhs (rhs i) L lhsMax (RL - s) 0 a).2.1 := by
      rw [hk]
      rcases hx with h | h
      · push_cast at h; omega
      · omega
    rw [writeA_other _ _ _ _ hxo]
    refine innerLoop_frame B lhs (rhs i) L lhsMax (RL - s) 0 a x ?_
    rcases hx with h | h
    · left; push_cast at h; omega
    · right; exact h

theorem outerLoop_spec (B : ℤ) (lhs : Acc) (lhsOffset lhsMax RL : ℤ) (rhs : Acc)
    (L : ℕ) (hB : 2 ≤ B) (hwin : lhsOffset ≤ lhsMax)
    (hL : (lhsMax - lhsOffset + 1).toNat = L)
    (hdl : ∀ x : ℤ, lhsOffset ≤ x → x ≤ lhsMax → 0 ≤ lhs x ∧ lhs x < B) (n : ℕ) :
    ∀ (i s : ℤ) (a : Acc),
      (∀ x : ℤ, i - n < x → x ≤ i → 0 ≤ rhs x ∧ rhs x < B) →
      (∀ x : ℤ, RL - s - L < x → x ≤ RL - s → 0 ≤ a x ∧ a x < B) →
      (∀ x : ℤ, RL - s - n + 1 - L ≤ x → x ≤ RL - s →
          0 ≤ outerLoop B lhs lhsOffset lhsMax RL rhs n i s a x ∧
            outerLoop B lhs lhsOffset lhsMax RL rhs n i s a x < B) ∧
        runVal B (outerLoop B lhs lhsOffset lhsMax RL rhs n i s a)
            (RL - s - n + 1 - L) (L + n) =
          runVal B a (RL - s - L + 1) L +
            runVal B lhs lhsOffset L * runVal B rhs (i - n + 1) n := by
  have hL1 : 1 ≤ L := by omega
  have hLz : (L : ℤ) = lhsMax - lhsOffset + 1 := by
    rw [← hL]; exact Int.toNat_of_nonneg (by omega)
  induction n with
  | zero =>
    intro i s a _ hacc
    constructor
    · intro x hx1 hx2
      push_cast at hx1
      exact hacc x (by linarith) hx2
    · simp only [outerLoop]
      have e : RL - s - ((0 : ℕ) : ℤ) + 1 - L = RL - s - L + 1 := by push_cast; ring
      rw [e]
      simp [runVal]
  | succ n ih =>
    intro i s a hrhs hacc
    obtain ⟨Lm, hLm⟩ : ∃ m, L = m + 1 := ⟨L - 1, by omega⟩
    simp only [outerLoop]
    rw [hL]
    have hk := innerLoop_k B lhs (rhs i) L lhsMax (RL - s) 0 a
    have hlhsd : ∀ t : ℕ, t < L → 0 ≤ lhs (lhsMax - t) ∧ lhs (lhsMax - t) < B := by
      intro t ht
      have ht' : (t : ℤ) < L := by exact_mod_cast ht
      exact hdl (lhsMax - t) (by omega) (by omega)
    have haccd : ∀ t : ℕ, t < L → 0 ≤ a (RL - s - t) ∧ a (RL - s - t) < B := by
      intro t ht
      have ht' : (t : ℤ) < L := by exact_mod_cast ht
      exact hacc (RL - s - t) (by omega) (by omega)
    have hri : 0 ≤ rhs i ∧ rhs i < B := hrhs i (by push_cast; omega) le_rfl
    have hstR := innerLoop_range B lhs (rhs i) hB hri L lhsMax (RL - s) 0 a
      ⟨le_refl 0, by linarith⟩ hlhsd haccd
    have hIV := innerLoop_val B lhs (rhs i) L lhsMax (RL - s) 0 a
    rw [hLz] at hIV
    have hoffl : lhsMax - (lhsMax - lhsOffset + 1) + 1 = lhsOffset := by ring
    rw [hoffl] at hIV
    rw [← hLz] at hIV
    -- abbreviations
    set st := innerLoop B lhs (rhs i) L lhsMax (RL - s) 0 a with hst
    set a2 := writeA st.2.2 st.2.1 st.1 with ha2
    -- the written-back cell
    have ha2cells : ∀ x : ℤ, RL - (s + 1) - L < x → x ≤ RL - (s + 1) →
        0 ≤ a2 x ∧ a2 x < B := by
      intro x hx1 hx2
      by_cases hxe : x = st.2.1
      · rw [ha2, hxe, writeA_same]; exact hstR.1
      · rw [ha2, writeA_other _ _ _ _ hxe]
        have hxk : x = RL - s - ((RL - s - x).toNat : ℤ) := by
          rw [Int.toNat_of_nonneg (by omega)]; ring
        have htlt : (RL - s - x).toNat < L := by
          rw [hk] at hxe
          omega
        have := hstR.2 (RL - s - x).toNat htlt
        rwa [← hxk] at this
    have hrec := ih (i - 1) (s + 1) a2
      (fun x hx1 hx2 => hrhs x (by push_cast at hx1 ⊢; omega) (by omega)) ha2cells
    have hframe := outerLoop_frame B lhs lhsOffset lhsMax RL rhs L hL n (i - 1) (s + 1) a2
    constructor
    · intro x hx1 hx2
      by_cases hxi : x ≤ RL - (s + 1)
      · exact hrec.1 x (by push_cast at hx1 ⊢; omega) hxi
      · have hxeq : x = RL - s := by omega
        rw [hframe x (Or.inr (by omega))]
        have hxo : x ≠ st.2.1 := by rw [hk]; omega
        rw [ha2, writeA_other _ _ _ _ hxo]
        have := hstR.2 0 (by omega)
        rw [hxeq]
        simpa using this
    · -- value identity
      have hout_top : outerLoop B lhs lhsOffset lhsMax RL rhs n (i - 1) (s + 1) a2
          (RL - s) = st.2.2 (RL - s) := by
        rw [hframe (RL - s) (Or.inr (by omega))]
        have hxo : RL - s ≠ st.2.1 := by rw [hk]; omega
        rw [ha2, writeA_other _ _ _ _ hxo]
      have hE1 : runVal B (outerLoop B lhs lhsOffset lhsMax RL rhs n (i - 1) (s + 1) a2)
          (RL - s - (n + 1 : ℕ) + 1 - L) (L + (n + 1)) =
          runVal B (outerLoop B lhs lhsOffset lhsMax RL rhs n (i - 1) (s + 1) a2)
            (RL - (s + 1) - n + 1 - L) (L + n) * B + st.2.2 (RL - s) := by
        have e : RL - s - ((n + 1 : ℕ) : ℤ) + 1 - L = RL - (s + 1) - n + 1 - L := by
          push_cast; ring
        rw [e, show L + (n + 1) = (L + n) + 1 from rfl, runVal_succ_top]
        have e2 : RL - (s + 1) - n + 1 - L + (L + n : ℕ) = RL - s := by push_cast; ring
        rw [e2, hout_top]
      have hE2' := hrec.2
      rw [show RL - (s + 1) - (L : ℤ) + 1 = RL - s - L from by ring] at hE2'
      rw [show i - 1 - (n : ℤ) + 1 = i - n from by ring] at hE2'
      have hE3 : runVal B a2 (RL - s - L) L =
          st.1 * B ^ Lm + runVal B st.2.2 (RL - s - L + 1) Lm := by
        have hcons := runVal_cons B a2 (RL - s - L) Lm
        rw [← hLm] at hcons
        rw [hcons]
        have h1 : a2 (RL - s - L) = st.1 := by
          rw [ha2, show RL - s - (L : ℤ) = st.2.1 from by rw [hk]]
          exact writeA_same _ _ _
        rw [h1]
        congr 1
        refine runVal_congr fun t ht => ?_
        rw [ha2]
        refine writeA_other _ _ _ _ ?_
        rw [hk]
        omega
      have hE4 : runVal B st.2.2 (RL - s - L + 1) Lm * B + st.2.2 (RL - s) =
          runVal B st.2.2 (RL - s - L + 1) L := by
        have h := runVal_succ_top B st.2.2 (RL - s - L + 1) Lm
        rw [← hLm] at h
        rw [show RL - s - (L : ℤ) + 1 + (Lm : ℤ) = RL - s from by omega] at h
        exact h.symm
      have hE6 : runVal B rhs (i - (n + 1 : ℕ) + 1) (n + 1) =
          runVal B rhs (i - n) n * B + rhs i := by
        rw [runVal_succ_top]
        have e : i - ((n + 1 : ℕ) : ℤ) + 1 = i - n := by push_cast; ring
        rw [e]
        have e2 : i - (n : ℤ) + n = i := by ring
        rw [e2]
      rw [show B ^ L = B ^ Lm * B from by rw [hLm, pow_succ]] at hIV
      linear_combination hE1 + B * hE2' + B * hE3 + hE4 + hIV -
        runVal B lhs lhsOffset L * hE6

theorem outerLoop_congr (B : ℤ) (lhs lhs2 : Acc) (lhsOffset lhsMax RL : ℤ)
    (rhs rhs2 : Acc) (L : ℕ) (hL : (lhsMax - lhsOffset + 1).toNat = L) (n : ℕ) :
    ∀ (i s : ℤ) (a a2 : Acc),
      (∀ x : ℤ, lhsOffset ≤ x → x ≤ lhsMax → lhs x = lhs2 x) →
      (∀ x : ℤ, i - n < x → x ≤ i → rhs x = rhs2 x) →
      (∀ x : ℤ, RL - s - n + 1 - L ≤ x → x ≤ RL - s → a x = a2 x) →
      ∀ x : ℤ, RL - s - n + 1 - L ≤ x → x ≤ RL - s →
        outerLoop B lhs lhsOffset lhsMax RL rhs n i s a x =
          outerLoop B lhs2 lhsOffset lhsMax RL rhs2 n i s a2 x := by
  induction n with
  | zero =>
    intro i s a a2 _ _ hacc x hx1 hx2
    exact hacc x (by push_cast at hx1 ⊢; omega) hx2
  | succ n ih =>
    intro i s a a2 hlh hrh hacc x hx1 hx2
    have hri : rhs i = rhs2 i := hrh i (by push_cast; omega) le_rfl
    simp only [outerLoop]
    rw [hL, hri]
    have hcong := innerLoop_congr B lhs lhs2 (rhs2 i) L lhsMax (RL - s) 0 a a2
      (fun t ht => hlh (lhsMax - t) (by omega) (by omega))
      (fun t ht => hacc (RL - s - t) (by push_cast; omega) (by omega))
    have hk1 := innerLoop_k B lhs (rhs2 i) L lhsMax (RL - s) 0 a
    have hk2 := innerLoop_k B lhs2 (rhs2 i) L lhsMax (RL - s) 0 a2
    have hagree : ∀ y : ℤ, RL - s - n - L ≤ y → y ≤ RL - s →
        writeA (innerLoop B lhs (rhs2 i) L lhsMax (RL - s) 0 a).2.2
            (innerLoop B lhs (rhs2 i) L lhsMax (RL - s) 0 a).2.1
            (innerLoop B lhs (rhs2 i) L lhsMax (RL - s) 0 a).1 y =
          writeA (innerLoop B lhs2 (rhs2 i) L lhsMax (RL - s) 0 a2).2.2
              (innerLoop B lhs2 (rhs2 i) L lhsMax (RL - s) 0 a2).2.1
              (innerLoop B lhs2 (rhs2 i) L lhsMax (RL - s) 0 a2).1 y := by
      intro y hy1 hy2
      by_cases hyo : y = RL - s - L
      · rw [hyo, ← hk1, writeA_same, hk1, ← hk2, writeA_same]
        exact hcong.1
      · have hyo1 : y ≠ (innerLoop B lhs (rhs2 i) L lhsMax (RL - s) 0 a).2.1 := by
          rw [hk1]; exact hyo
        have hyo2 : y ≠ (innerLoop B lhs2 (rhs2 i) L lhsMax (RL - s) 0 a2).2.1 := by
          rw [hk2]; exact hyo
        rw [writeA_other _ _ _ _ hyo1, writeA_other _ _ _ _ hyo2]
        by_cases hylow : y < RL - s - L
        · rw [innerLoop_frame B lhs (rhs2 i) L lhsMax (RL - s) 0 a y (Or.inl (by omega)),
            innerLoop_frame B lhs2 (rhs2 i) L lhsMax (RL - s) 0 a2 y (Or.inl (by omega))]
          exact hacc y (by push_cast; omega) (by omega)
        · have hT : y = RL - s - ((RL - s - y).toNat : ℤ) := by
            rw [Int.toNat_of_nonneg (by omega)]; ring
          have hTlt : (RL - s - y).toNat < L := by omega
          have := hcong.2 (RL - s - y).toNat hTlt
          rwa [← hT] at this
    by_cases hxtop : x ≤ RL - (s + 1)
    · exact ih (i - 1) (s + 1) _ _ hlh
        (fun y hy1 hy2 => hrh y (by push_cast at hy1 ⊢; omega) (by omega))
        (fun y hy1 hy2 => hagree y (by omega) (by omega)) x
        (by push_cast at hx1 ⊢; omega) hxtop
    · rw [outerLoop_frame B lhs lhsOffset lhsMax RL rhs L hL n (i - 1) (s + 1) _ x
        (Or.inr (by omega)),
        outerLoop_frame B lhs2 lhsOffset lhsMax RL rhs2 L hL n (i - 1) (s + 1) _ x
        (Or.inr (by omega))]
      exact hagree x (by push_cast at hx1 ⊢; omega) hx2

theorem outerLoop_zero_rhs (B : ℤ) (lhs : Acc) (lhsOffset lhsMax RL : ℤ) (rhs : Acc)
    (L : ℕ) (hB : 0 < B) (hL : (lhsMax - lhsOffset + 1).toNat = L) (n : ℕ) :
    ∀ (i s : ℤ) (a : Acc),
      (∀ x : ℤ, i - n < x → x ≤ i → rhs x = 0) →
      (∀ x : ℤ, RL - s - n + 1 - L ≤ x → x ≤ RL - s → a x < B) →
      ∀ x : ℤ, outerLoop B lhs lhsOffset lhsMax RL rhs n i s a x =
        if RL - s - n + 1 - L ≤ x ∧ x ≤ RL - s - L then 0 else a x := by
  induction n with
  | zero =>
    intro i s a _ _ x
    have hcond : ¬(RL - s - (0 : ℕ) + 1 - L ≤ x ∧ x ≤ RL - s - L) := by
      push_cast; omega
    rw [if_neg hcond]
    rfl
  | succ n ih =>
    intro i s a hrhs hacc x
    have hri : rhs i = 0 := hrhs i (by push_cast; omega) le_rfl
    simp only [outerLoop]
    rw [hL, hri]
    have hzr := innerLoop_zero_rhs B lhs L lhsMax (RL - s) a
      (fun t ht => (hacc (RL - s - t) (by push_cast; omega) (by omega)))
    have hk := innerLoop_k B lhs 0 L lhsMax (RL - s) 0 a
    rw [hzr.1, hzr.2]
    have hrec := ih (i - 1) (s + 1) (writeA a (RL - s - L) 0)
      (fun y hy1 hy2 => hrhs y (by push_cast at hy1 ⊢; omega) (by omega)) ?_
    · have hx := hrec x
      rw [show (innerLoop B lhs 0 L lhsMax (RL - s) 0 a).2.1 = RL - s - L from hk]
      rw [hx]
      by_cases h1 : RL - (s + 1) - n + 1 - L ≤ x ∧ x ≤ RL - (s + 1) - L
      · rw [if_pos h1, if_pos (by push_cast at h1 ⊢; omega)]
      · rw [if_neg h1]
        by_cases h2 : x = RL - s - L
        · rw [h2, writeA_same, if_pos (by push_cast; omega)]
        · rw [writeA_other _ _ _ _ h2, if_neg (by push_cast at h1 ⊢; omega)]
    · intro y hy1 hy2
      by_cases h2 : y = RL - s - L
      · rw [h2, writeA_same]; exact hB
      · rw [writeA_other _ _ _ _ h2]
        exact hacc y (by push_cast at hy1 ⊢; omega) (by omega)

/-! ### Invariants of the computed-length kernel (`multiply-core.c` / `multiply-core-16.c`) -/

theorem outerLoopC_frame (B : ℤ) (lhs : Acc) (lhsOffset lhsMax RL : ℤ) (rhs : Acc)
    (L : ℕ) (hL : (lhsMax - lhsOffset + 1).toNat = L) (n : ℕ) :
    ∀ (i s cz : ℤ) (a : Acc) (x : ℤ), (x < RL - s - n + 1 - L ∨ RL - s < x) →
      (outerLoopC B lhs lhsOffset lhsMax RL rhs n i s cz a).2 x = a x := by
  induction n with
  | zero => intro i s cz a x _; rfl
  | succ n ih =>
    intro i s cz a x hx
    simp only [outerLoopC]
    rw [hL]
    have hk := innerLoop_k B lhs (rhs i) L lhsMax (RL - s) cz a
    have hx' : x < RL - (s + 1) - n + 1 - L ∨ RL - (s + 1) < x := by
      rcases hx with h | h
      · left; push_cast at h ⊢; linarith
      · right; linarith
    rw [ih (i - 1) (s + 1) _ _ x hx']
    by_cases hpos : (innerLoop B lhs (rhs i) L lhsMax (RL - s) cz a).1 > 0
    · rw [if_pos hpos]
      have hxo : x ≠ (innerLoop B lhs (rhs i) L lhsMax (RL - s) cz a).2.1 := by
        rw [hk]
        rcases hx with h | h
        · push_cast at h; omega
        · omega
      show writeA _ _ _ x = a x
      rw [writeA_other _ _ _ _ hxo]
      refine innerLoop_frame B lhs (rhs i) L lhsMax (RL - s) cz a x ?_
      rcases hx with h | h
      · left; push_cast at h; omega
      · right; exact h
    · rw [if_neg hpos]
      show (innerLoop B lhs (rhs i) L lhsMax (RL - s) cz a).2.2 x = a x
      refine innerLoop_frame B lhs (rhs i) L lhsMax (RL - s) cz a x ?_
      rcases hx with h | h
      · left; push_cast at h; omega
      · right; exact h

theorem outerLoopC_congr (B : ℤ) (lhs lhs2 : Acc) (lhsOffset lhsMax RL : ℤ)
    (rhs rhs2 : Acc) (L : ℕ) (hL : (lhsMax - lhsOffset + 1).toNat = L) (n : ℕ) :
    ∀ (i s cz : ℤ) (a a2 : Acc),
      (∀ x : ℤ, lhsOffset ≤ x → x ≤ lhsMax → lhs x = lhs2 x) →
      (∀ x : ℤ, i - n < x → x ≤ i → rhs x = rhs2 x) →
      (∀ x : ℤ, RL - s - n + 1 - L ≤ x → x ≤ RL - s → a x = a2 x) →
      (outerLoopC B lhs lhsOffset lhsMax RL rhs n i s cz a).1 =
          (outerLoopC B lhs2 lhsOffset lhsMax RL rhs2 n i s cz a2).1 ∧
        ∀ x : ℤ, RL - s - n + 1 - L ≤ x → x ≤ RL - s →
          (outerLoopC B lhs lhsOffset lhsMax RL rhs n i s cz a).2 x =
            (outerLoopC B lhs2 lhsOffset lhsMax RL rhs2 n i s cz a2).2 x := by
  induction n with
  | zero =>
    intro i s cz a a2 _ _ hacc
    exact ⟨rfl, fun x hx1 hx2 => hacc x (by push_cast at hx1 ⊢; omega) hx2⟩
  | succ n ih =>
    intro i s cz a a2 hlh hrh hacc
    have hri : rhs i = rhs2 i := hrh i (by push_cast; omega) le_rfl
    simp only [outerLoopC]
    rw [hL, hri]
    set st1 := innerLoop B lhs (rhs2 i) L lhsMax (RL - s) cz a with hst1
    set st2 := innerLoop B lhs2 (rhs2 i) L lhsMax (RL - s) cz a2 with hst2
    set P1 : ℤ × Acc := if st1.1 > 0 then ((0 : ℤ), writeA st1.2.2 st1.2.1 st1.1)
      else (st1.1, st1.2.2) with hP1
    set P2 : ℤ × Acc := if st2.1 > 0 then ((0 : ℤ), writeA st2.2.2 st2.2.1 st2.1)
      else (st2.1, st2.2.2) with hP2
    have hcong := innerLoop_congr B lhs lhs2 (rhs2 i) L lhsMax (RL - s) cz a a2
      (fun t ht => hlh (lhsMax - t) (by omega) (by omega))
      (fun t ht => hacc (RL - s - t) (by push_cast; omega) (by omega))
    rw [← hst1, ← hst2] at hcong
    have hk1 := innerLoop_k B lhs (rhs2 i) L lhsMax (RL - s) cz a
    have hk2 := innerLoop_k B lhs2 (rhs2 i) L lhsMax (RL - s) cz a2
    rw [← hst1] at hk1
    rw [← hst2] at hk2
    have hinner : ∀ z : ℤ, RL - (s + 1) - n + 1 - L ≤ z → z ≤ RL - s →
        st1.2.2 z = st2.2.2 z := by
      intro z hz1 hz2
      by_cases hzlow : z ≤ RL - s - L
      · rw [hst1, hst2,
          innerLoop_frame B lhs (rhs2 i) L lhsMax (RL - s) cz a z (Or.inl (by omega)),
          innerLoop_frame B lhs2 (rhs2 i) L lhsMax (RL - s) cz a2 z (Or.inl (by omega))]
        exact hacc z (by push_cast; omega) (by omega)
      · have hT : z = RL - s - ((RL - s - z).toNat : ℤ) := by
          rw [Int.toNat_of_nonneg (by omega)]; ring
        have hTlt : (RL - s - z).toNat < L := by omega
        have := hcong.2 (RL - s - z).toNat hTlt
        rwa [← hT] at this
    have hagree : ∀ y : ℤ, RL - (s + 1) - n + 1 - L ≤ y → y ≤ RL - s →
        P1.2 y = P2.2 y := by
      intro y hy1 hy2
      rw [hP1, hP2, ← hcong.1]
      by_cases hpos : st1.1 > 0
      · rw [if_pos hpos, if_pos hpos]
        show writeA _ _ _ y = writeA _ _ _ y
        by_cases hyo : y = RL - s - L
        · rw [hyo, ← hk1, writeA_same, hk1, ← hk2, writeA_same, hcong.1]
        · rw [writeA_other _ _ _ _ (by rw [hk1]; exact hyo),
            writeA_other _ _ _ _ (by rw [hk2]; exact hyo)]
          exact hinner y hy1 hy2
      · rw [if_neg hpos, if_neg hpos]
        exact hinner y hy1 hy2
    have hcarry : P1.1 = P2.1 := by
      rw [hP1, hP2, ← hcong.1]
      by_cases hpos : st1.1 > 0
      · rw [if_pos hpos, if_pos hpos]
      · rw [if_neg hpos, if_neg hpos]
    rw [hcarry]
    have hrec := ih (i - 1) (s + 1) P2.1 P1.2 P2.2 hlh
      (fun y hy1 hy2 => hrh y (by push_cast at hy1 ⊢; omega) (by omega))
      (fun y hy1 hy2 => hagree y (by omega) (by omega))
    refine ⟨hrec.1, fun x hx1 hx2 => ?_⟩
    by_cases hxtop : x ≤ RL - (s + 1)
    · exact hrec.2 x (by push_cast at hx1 ⊢; omega) hxtop
    · rw [outerLoopC_frame B lhs lhsOffset lhsMax RL rhs L hL n (i - 1) (s + 1) _ _ x
        (Or.inr (by omega)),
        outerLoopC_frame B lhs2 lhsOffset lhsMax RL rhs2 L hL n (i - 1) (s + 1) _ _ x
        (Or.inr (by omega))]
      exact hagree x (by push_cast at hx1 ⊢; omega) hx2
theorem outerLoopC_carry (B : ℤ) (lhs : Acc) (lhsOffset lhsMax RL : ℤ) (rhs : Acc)
    (L : ℕ) (hB : 2 ≤ B) (hwin : lhsOffset ≤ lhsMax)
    (hL : (lhsMax - lhsOffset + 1).toNat = L)
    (hdl : ∀ x : ℤ, lhsOffset ≤ x → x ≤ lhsMax → 0 ≤ lhs x ∧ lhs x < B) (n : ℕ) :
    ∀ (i s : ℤ) (a : Acc),
      (∀ x : ℤ, i - n < x → x ≤ i → 0 ≤ rhs x ∧ rhs x < B) →
      (∀ x : ℤ, RL - s - n + 1 - L ≤ x → x ≤ RL - s → 0 ≤ a x ∧ a x < B) →
      (outerLoopC B lhs lhsOffset lhsMax RL rhs n i s 0 a).1 = 0 ∧
        ∀ x : ℤ, RL - s - n + 1 - L ≤ x → x ≤ RL - s →
          0 ≤ (outerLoopC B lhs lhsOffset lhsMax RL rhs n i s 0 a).2 x ∧
            (outerLoopC B lhs lhsOffset lhsMax RL rhs n i s 0 a).2 x < B := by
  have hL1 : 1 ≤ L := by omega
  induction n with
  | zero =>
    intro i s a _ hacc
    exact ⟨rfl, fun x hx1 hx2 => hacc x (by push_cast at hx1 ⊢; omega) hx2⟩
  | succ n ih =>
    intro i s a hrhs hacc
    simp only [outerLoopC]
    rw [hL]
    set st := innerLoop B lhs (rhs i) L lhsMax (RL - s) 0 a with hst
    have hk := innerLoop_k B lhs (rhs i) L lhsMax (RL - s) 0 a
    rw [← hst] at hk
    have hri : 0 ≤ rhs i ∧ rhs i < B := hrhs i (by push_cast; omega) le_rfl
    have hstR := innerLoop_range B lhs (rhs i) hB hri L lhsMax (RL - s) 0 a
      ⟨le_refl 0, by linarith⟩
      (fun t ht => hdl (lhsMax - t) (by omega) (by omega))
      (fun t ht => hacc (RL - s - t) (by push_cast; omega) (by omega))
    rw [← hst] at hstR
    set P : ℤ × Acc := if st.1 > 0 then ((0 : ℤ), writeA st.2.2 st.2.1 st.1)
      else (st.1, st.2.2) with hP
    have hPc : P.1 = 0 := by
      rw [hP]
      by_cases hpos : st.1 > 0
      · rw [if_pos hpos]
      · rw [if_neg hpos]
        have := hstR.1.1
        omega
    have hPcells : ∀ y : ℤ, RL - (s + 1) - n + 1 - L ≤ y → y ≤ RL - s →
        0 ≤ P.2 y ∧ P.2 y < B := by
      intro y hy1 hy2
      have hval : P.2 y = st.2.2 y ∨ P.2 y = st.1 := by
        rw [hP]
        by_cases hpos : st.1 > 0
        · rw [if_pos hpos]
          by_cases hyo : y = st.2.1
          · right; rw [hyo]; show writeA _ _ _ st.2.1 = st.1; rw [writeA_same]
          · left; show writeA _ _ _ y = st.2.2 y; rw [writeA_other _ _ _ _ hyo]
        · rw [if_neg hpos]; left; rfl
      rcases hval with h | h
      · rw [h]
        by_cases hylow : y ≤ RL - s - L
        · rw [hst, innerLoop_frame B lhs (rhs i) L lhsMax (RL - s) 0 a y
            (Or.inl (by omega))]
          exact hacc y (by push_cast; omega) (by omega)
        · have hT : y = RL - s - ((RL - s - y).toNat : ℤ) := by
            rw [Int.toNat_of_nonneg (by omega)]; ring
          have hTlt : (RL - s - y).toNat < L := by omega
          have := hstR.2 (RL - s - y).toNat hTlt
          rwa [← hT] at this
      · rw [h]; exact hstR.1
    rw [hPc]
    have hrec := ih (i - 1) (s + 1) P.2
      (fun y hy1 hy2 => hrhs y (by push_cast at hy1 ⊢; omega) (by omega))
      (fun y hy1 hy2 => hPcells y (by omega) (by omega))
    refine ⟨hrec.1, fun x hx1 hx2 => ?_⟩
    by_cases hxtop : x ≤ RL - (s + 1)
    · exact hrec.2 x (by push_cast at hx1 ⊢; omega) hxtop
    · rw [outerLoopC_frame B lhs lhsOffset lhsMax RL rhs L hL n (i - 1) (s + 1) 0 P.2 x
        (Or.inr (by omega))]
      exact hPcells x (by push_cast at hx1 ⊢; omega) hx2

theorem outerLoopC_eq_outerLoop (B : ℤ) (lhs : Acc) (lhsOffset lhsMax RL : ℤ)
    (rhs : Acc) (L : ℕ) (hB : 2 ≤ B) (hwin : lhsOffset ≤ lhsMax)
    (hL : (lhsMax - lhsOffset + 1).toNat = L)
    (hdl : ∀ x : ℤ, lhsOffset ≤ x → x ≤ lhsMax → 0 ≤ lhs x ∧ lhs x < B) (n : ℕ) :
    ∀ (i s : ℤ) (a : Acc),
      (∀ x : ℤ, i - n < x → x ≤ i → 0 ≤ rhs x ∧ rhs x < B) →
      (∀ x : ℤ, RL - s - L < x → x ≤ RL - s → 0 ≤ a x ∧ a x < B) →
      (∀ x : ℤ, RL - s - n + 1 - L ≤ x → x ≤ RL - s - L → a x = 0) →
      (outerLoopC B lhs lhsOffset lhsMax RL rhs n i s 0 a).2 =
        outerLoop B lhs lhsOffset lhsMax RL rhs n i s a := by
  have hL1 : 1 ≤ L := by omega
  induction n with
  | zero => intro i s a _ _ _; rfl
  | succ n ih =>
    intro i s a hrhs hacc hzero
    simp only [outerLoopC, outerLoop]
    rw [hL]
    set st := innerLoop B lhs (rhs i) L lhsMax (RL - s) 0 a with hst
    have hk := innerLoop_k B lhs (rhs i) L lhsMax (RL - s) 0 a
    rw [← hst] at hk
    have hri : 0 ≤ rhs i ∧ rhs i < B := hrhs i (by push_cast; omega) le_rfl
    have hstR := innerLoop_range B lhs (rhs i) hB hri L lhsMax (RL - s) 0 a
      ⟨le_refl 0, by linarith⟩
      (fun t ht => hdl (lhsMax - t) (by omega) (by omega))
      (fun t ht => hacc (RL - s - t) (by omega) (by omega))
    rw [← hst] at hstR
    have ha2cells : ∀ y : ℤ, RL - (s + 1) - L < y → y ≤ RL - (s + 1) →
        0 ≤ writeA st.2.2 st.2.1 st.1 y ∧ writeA st.2.2 st.2.1 st.1 y < B := by
      intro y hy1 hy2
      by_cases hyo : y = st.2.1
      · rw [hyo, writeA_same]; exact hstR.1
      · rw [writeA_other _ _ _ _ hyo]
        have hT : y = RL - s - ((RL - s - y).toNat : ℤ) := by
          rw [Int.toNat_of_nonneg (by omega)]; ring
        have hTlt : (RL - s - y).toNat < L := by rw [hk] at hyo; omega
        have := hstR.2 (RL - s - y).toNat hTlt
        rwa [← hT] at this
    have ha2zero : ∀ y : ℤ, RL - (s + 1) - n + 1 - L ≤ y → y ≤ RL - (s + 1) - L →
        writeA st.2.2 st.2.1 st.1 y = 0 := by
      intro y hy1 hy2
      rw [writeA_other _ _ _ _ (by rw [hk]; omega)]
      rw [hst, innerLoop_frame B lhs (rhs i) L lhsMax (RL - s) 0 a y (Or.inl (by omega))]
      exact hzero y (by push_cast at hy1 ⊢; omega) (by omega)
    by_cases hpos : st.1 > 0
    · rw [if_pos hpos]
      exact ih (i - 1) (s + 1) (writeA st.2.2 st.2.1 st.1)
        (fun y hy1 hy2 => hrhs y (by push_cast at hy1 ⊢; omega) (by omega))
        ha2cells ha2zero
    · rw [if_neg hpos]
      have hz : st.1 = 0 := by have := hstR.1.1; omega
      have hzz : st.2.2 st.2.1 = 0 := by
        rw [hk, hst, innerLoop_frame B lhs (rhs i) L lhsMax (RL - s) 0 a (RL - s - L)
          (Or.inl (by omega))]
        exact hzero (RL - s - L) (by push_cast; omega) le_rfl
      have hwr : writeA st.2.2 st.2.1 st.1 = st.2.2 := by
        rw [hz, ← hzz]
        exact writeA_self _ _
      rw [hwr, hz]
      exact ih (i - 1) (s + 1) st.2.2
        (fun y hy1 hy2 => hrhs y (by push_cast at hy1 ⊢; omega) (by omega))
        (fun y hy1 hy2 => by
          have := ha2cells y hy1 hy2
          rwa [hwr] at this)
        (fun y hy1 hy2 => by
          have := ha2zero y hy1 hy2
          rwa [hwr] at this)

theorem outerLoopC_zero_rhs (B : ℤ) (lhs : Acc) (lhsOffset lhsMax RL : ℤ) (rhs : Acc)
    (L : ℕ) (hL : (lhsMax - lhsOffset + 1).toNat = L) (n : ℕ) :
    ∀ (i s : ℤ) (a : Acc),
      (∀ x : ℤ, i - n < x → x ≤ i → rhs x = 0) →
      (∀ x : ℤ, RL - s - n + 1 - L ≤ x → x ≤ RL - s → a x < B) →
      (outerLoopC B lhs lhsOffset lhsMax RL rhs n i s 0 a).1 = 0 ∧
        (outerLoopC B lhs lhsOffset lhsMax RL rhs n i s 0 a).2 = a := by
  induction n with
  | zero => intro i s a _ _; exact ⟨rfl, rfl⟩
  | succ n ih =>
    intro i s a hrhs hacc
    have hri : rhs i = 0 := hrhs i (by push_cast; omega) le_rfl
    simp only [outerLoopC]
    rw [hL, hri]
    have hzr := innerLoop_zero_rhs B lhs L lhsMax (RL - s) a
      (fun t ht => hacc (RL - s - t) (by push_cast; omega) (by omega))
    rw [hzr.1, hzr.2]
    rw [if_neg (by omega)]
    exact ih (i - 1) (s + 1) a
      (fun y hy1 hy2 => hrhs y (by push_cast at hy1 ⊢; omega) (by omega))
      (fun y hy1 hy2 => hacc y (by push_cast at hy1 ⊢; omega) (by omega))

/-! ### Decomposing a digit-run value into blocks -/

theorem runVal_one_block (B : ℤ) (f : Acc) (off : ℤ) (N : ℕ) (lo : ℤ) (m : ℕ)
    (h1 : off ≤ lo) (h2 : lo + m ≤ off + N)
    (hz : ∀ x : ℤ, off ≤ x → x < off + N → x < lo ∨ lo + m ≤ x → f x = 0) :
    runVal B f off N = runVal B f lo m * B ^ (off + N - (lo + m)).toNat := by
  have hN : N = (lo - off).toNat + (m + (off + N - (lo + m)).toNat) := by omega
  calc runVal B f off N
      = runVal B f off ((lo - off).toNat + (m + (off + N - (lo + m)).toNat)) := by
        rw [← hN]
    _ = runVal B f off (lo - off).toNat * B ^ (m + (off + N - (lo + m)).toNat) +
        runVal B f (off + (lo - off).toNat) (m + (off + N - (lo + m)).toNat) :=
        runVal_split _ _ _ _ _
    _ = runVal B f lo m * B ^ (off + N - (lo + m)).toNat := by
        have hz1 : runVal B f off (lo - off).toNat = 0 := by
          refine runVal_zero_run fun t ht => ?_
          refine hz _ (by omega) (by omega) (Or.inl (by omega))
        have hofflo : off + ((lo - off).toNat : ℤ) = lo := by omega
        rw [hz1, hofflo, runVal_split]
        have hz2 : runVal B f (lo + m) (off + N - (lo + m)).toNat = 0 := by
          refine runVal_zero_run fun t ht => ?_
          refine hz _ (by omega) (by omega) (Or.inr (by omega))
        rw [hz2]
        ring

theorem runVal_two_blocks (B : ℤ) (f : Acc) (off : ℤ) (N : ℕ)
    (lo1 : ℤ) (m1 : ℕ) (lo2 : ℤ) (m2 : ℕ)
    (h1 : off ≤ lo1) (h2 : lo1 + m1 ≤ lo2) (h3 : lo2 + m2 ≤ off + N)
    (hz : ∀ x : ℤ, off ≤ x → x < off + N →
      (x < lo1 ∨ (lo1 + m1 ≤ x ∧ x < lo2) ∨ lo2 + m2 ≤ x) → f x = 0) :
    runVal B f off N =
      runVal B f lo1 m1 * B ^ (off + N - (lo1 + m1)).toNat +
        runVal B f lo2 m2 * B ^ (off + N - (lo2 + m2)).toNat := by
  have hN : N = ((lo2 + m2 - off).toNat + (off + N - (lo2 + m2)).toNat) := by omega
  calc runVal B f off N
      = runVal B f off ((lo2 + m2 - off).toNat + (off + N - (lo2 + m2)).toNat) := by
        rw [← hN]
    _ = runVal B f off (lo2 + m2 - off).toNat * B ^ (off + N - (lo2 + m2)).toNat +
        runVal B f (off + (lo2 + m2 - off).toNat) (off + N - (lo2 + m2)).toNat :=
        runVal_split _ _ _ _ _
    _ = runVal B f lo1 m1 * B ^ (off + N - (lo1 + m1)).toNat +
        runVal B f lo2 m2 * B ^ (off + N - (lo2 + m2)).toNat := by
        have hz3 : runVal B f (off + (lo2 + m2 - off).toNat)
            (off + N - (lo2 + m2)).toNat = 0 := by
          refine runVal_zero_run fun t ht => ?_
          refine hz _ (by omega) (by omega) (Or.inr (Or.inr (by omega)))
        rw [hz3, add_zero]
        have hsplit2 : (lo2 + m2 - off).toNat = (lo2 - off).toNat + m2 := by omega
        rw [hsplit2, runVal_split]
        have hofflo2 : off + ((lo2 - off).toNat : ℤ) = lo2 := by omega
        rw [hofflo2]
        have hone : runVal B f off (lo2 - off).toNat =
            runVal B f lo1 m1 * B ^ (off + (lo2 - off).toNat - (lo1 + m1)).toNat := by
          refine runVal_one_block B f off (lo2 - off).toNat lo1 m1 h1 (by omega)
            fun x hx1 hx2 hx3 => ?_
          refine hz x hx1 (by omega) ?_
          rcases hx3 with h | h
          · exact Or.inl h
          · exact Or.inr (Or.inl ⟨h, by omega⟩)
        rw [hone]
        have hE : (off + N - (lo1 + m1)).toNat =
            (off + ((lo2 - off).toNat : ℤ) - (lo1 + m1)).toNat +
              (m2 + (off + N - (lo2 + m2)).toNat) := by omega
        rw [hE, pow_add, pow_add]
        ring

/-! ### Unfolding the kernel entry points to their loops -/

theorem Int9N_multiplyCore_as_outer (result : Acc) (RL shift : ℤ) (lhs : Acc)
    (lhsOffset lhsMax : ℤ) (rhs : Acc) (rhsOffset rhsMax : ℤ) (R : ℕ)
    (hR : (rhsMax - rhsOffset + 1).toNat = R) :
    Int9N_multiplyCore result RL shift lhs lhsOffset lhsMax rhs rhsOffset rhsMax =
      outerLoop BASE9 lhs lhsOffset lhsMax RL rhs R rhsMax shift result := by
  simp only [Int9N_multiplyCore, hR]

theorem Int9N_multiplyCore_len_as_outerC (result : Acc) (lhs : Acc)
    (lhsOffset lhsLength : ℤ) (rhs : Acc) (rhsOffset rhsLength : ℤ) (R : ℕ)
    (hR : (rhsOffset + rhsLength - 1 - rhsOffset + 1).toNat = R) :
    Int9N_multiplyCore_len result lhs lhsOffset lhsLength rhs rhsOffset rhsLength =
      (outerLoopC BASE9 lhs lhsOffset (lhsOffset + lhsLength - 1)
        (lhsLength + rhsLength) rhs R (rhsOffset + rhsLength - 1) 1 0 result).2 := by
  simp only [Int9N_multiplyCore_len, hR]

theorem Int16N_multiplyCore_as_outerC (result : Acc) (lhs : Acc)
    (lhsOffset lhsLength : ℤ) (rhs : Acc) (rhsOffset rhsLength : ℤ) (R : ℕ)
    (hR : (rhsOffset + rhsLength - 1 - rhsOffset + 1).toNat = R) :
    Int16N_multiplyCore result lhs lhsOffset lhsLength rhs rhsOffset rhsLength =
      (outerLoopC BASE16 lhs lhsOffset (lhsOffset + lhsLength - 1)
        (lhsLength + rhsLength) rhs R (rhsOffset + rhsLength - 1) 1 0 result).2 := by
  simp only [Int16N_multiplyCore, hR]

/-! ### Claim theorems -/

/-- C7: accumulator cells outside the product footprint
`[resultLength - shiftLast - lhsLength, resultLength - shiftFirst]`
(`shiftLast = shiftFirst + rhsLength - 1`) of an explicit-shift kernel call
hold exactly their pre-call values, for every valid (non-empty-window) input.
No constraint on any cell value is needed: the kernel's write indices are
determined by the loop bounds alone. -/
theorem c7_frame_outside_footprint (result : Acc) (resultLength shift : ℤ)
    (lhs : Acc) (lhsOffset lhsMax : ℤ) (rhs : Acc) (rhsOffset rhsMax : ℤ) (x : ℤ)
    (hLw : lhsOffset ≤ lhsMax) (hRw : rhsOffset ≤ rhsMax)
    (hx : x < resultLength - (shift + (rhsMax - rhsOffset + 1) - 1) -
        (lhsMax - lhsOffset + 1) ∨ resultLength - shift < x) :
    Int9N_multiplyCore result resultLength shift lhs lhsOffset lhsMax
      rhs rhsOffset rhsMax x = result x := by
  rw [Int9N_multiplyCore_as_outer result resultLength shift lhs lhsOffset lhsMax
    rhs rhsOffset rhsMax (rhsMax - rhsOffset + 1).toNat rfl]
  refine outerLoop_frame BASE9 lhs lhsOffset lhsMax resultLength rhs
    (lhsMax - lhsOffset + 1).toNat rfl (rhsMax - rhsOffset + 1).toNat rhsMax shift
    result x ?_
  rcases hx with h | h
  · left; omega
  · right; exact h

/-- Witness for C7: a concrete call (`lhs = [7]`, `rhs = [9]`, `shift = 1`,
`resultLength = 3`) leaves the cell below the footprint untouched at its
pre-call value 42. -/
theorem c7_frame_outside_footprint_witness :
    Int9N_multiplyCore (fun x => if x = 0 then 42 else 0) 3 1
      (fun _ => 7) 0 0 (fun _ => 9) 0 0 0 = 42 := by
  have h := c7_frame_outside_footprint (fun x => if x = 0 then 42 else 0) 3 1
    (fun _ => 7) 0 0 (fun _ => 9) 0 0 0 (by decide) (by decide)
    (Or.inl (by decide))
  simpa using h

/-- C4 as stated is false: with `shift = 0` (the literal parameter value the
claim prescribes) the explicit-shift kernel writes the low product digit at
index `resultLength = 2`, outside the accumulator, and the final state of
cells 0 and 1 is `[0, 999999998]`, not the claimed `[999999998, 1]`. -/
theorem c4_counterexample :
    Int9N_multiplyCore (fun _ => 0) 2 0 (fun _ => 999999999) 0 0
        (fun _ => 999999999) 0 0 0 = 0 ∧
      Int9N_multiplyCore (fun _ => 0) 2 0 (fun _ => 999999999) 0 0
        (fun _ => 999999999) 0 0 1 = 999999998 ∧
      Int9N_multiplyCore (fun _ => 0) 2 0 (fun _ => 999999999) 0 0
        (fun _ => 999999999) 0 0 2 = 1 ∧
      ¬(Int9N_multiplyCore (fun _ => 0) 2 0 (fun _ => 999999999) 0 0
          (fun _ => 999999999) 0 0 0 = 999999998 ∧
        Int9N_multiplyCore (fun _ => 0) 2 0 (fun _ => 999999999) 0 0
          (fun _ => 999999999) 0 0 1 = 1) := by
  refine ⟨by decide, by decide, by decide, ?_⟩
  intro h
  have := h.1
  revert this
  decide

/-- C4 amended: with `shift = 1` — the parameter value that places the least
significant product digit at index `resultLength - 1`, i.e. zero digit
displacement — squaring `999999999` into the zeroed 2-cell accumulator yields
exactly `[999999998, 1]`, the digits of `999999999²`. -/
theorem c4_amended :
    Int9N_multiplyCore (fun _ => 0) 2 1 (fun _ => 999999999) 0 0
        (fun _ => 999999999) 0 0 0 = 999999998 ∧
      Int9N_multiplyCore (fun _ => 0) 2 1 (fun _ => 999999999) 0 0
        (fun _ => 999999999) 0 0 1 = 1 := by
  exact ⟨by decide, by decide⟩

/-- C1 as stated is false for the explicit-shift kernel: passing the literal
parameter `shift = 0` puts the least-significant product digit at index
`resultLength`, outside the accumulator (out of bounds in C), so decoding the
accumulator does not give `a * b`: for `a = b = 3` the decode is `0 ≠ 9`. -/
theorem c1_counterexample :
    runVal BASE9 (Int9N_multiplyCore (fun _ => 0) 2 0 (fun _ => 3) 0 0
        (fun _ => 3) 0 0) 0 2 = 0 ∧
      (3 * 3 : ℤ) ≠ 0 := by
  exact ⟨by decide, by decide⟩

/-- C1 amended: with `shift = 1` — the kernel's zero-displacement parameter
value, which the computed-length kernels fix internally — multiplying any two
in-range digit runs into a zero-initialized accumulator of length
`lenA + lenB` and decoding gives exactly the product of the operand values.
Stated for all three kernels: `int-9.c`/`int9.c` at `shift = 1`,
`multiply-core.c`, and `multiply-core-16.c`. -/
theorem c1_amended :
    (∀ (lhs rhs : Acc) (lhsOffset rhsOffset : ℤ) (L R : ℕ), 1 ≤ L → 1 ≤ R →
      (∀ x : ℤ, lhsOffset ≤ x → x ≤ lhsOffset + L - 1 → 0 ≤ lhs x ∧ lhs x < BASE9) →
      (∀ x : ℤ, rhsOffset ≤ x → x ≤ rhsOffset + R - 1 → 0 ≤ rhs x ∧ rhs x < BASE9) →
      runVal BASE9 (Int9N_multiplyCore (fun _ => 0) (L + R) 1 lhs lhsOffset
          (lhsOffset + L - 1) rhs rhsOffset (rhsOffset + R - 1)) 0 (L + R) =
        runVal BASE9 lhs lhsOffset L * runVal BASE9 rhs rhsOffset R) ∧
    (∀ (lhs rhs : Acc) (lhsOffset rhsOffset : ℤ) (L R : ℕ), 1 ≤ L → 1 ≤ R →
      (∀ x : ℤ, lhsOffset ≤ x → x ≤ lhsOffset + L - 1 → 0 ≤ lhs x ∧ lhs x < BASE9) →
      (∀ x : ℤ, rhsOffset ≤ x → x ≤ rhsOffset + R - 1 → 0 ≤ rhs x ∧ rhs x < BASE9) →
      runVal BASE9 (Int9N_multiplyCore_len (fun _ => 0) lhs lhsOffset L
          rhs rhsOffset R) 0 (L + R) =
        runVal BASE9 lhs lhsOffset L * runVal BASE9 rhs rhsOffset R) ∧
    (∀ (lhs rhs : Acc) (lhsOffset rhsOffset : ℤ) (L R : ℕ), 1 ≤ L → 1 ≤ R →
      (∀ x : ℤ, lhsOffset ≤ x → x ≤ lhsOffset + L - 1 → 0 ≤ lhs x ∧ lhs x < BASE16) →
      (∀ x : ℤ, rhsOffset ≤ x → x ≤ rhsOffset + R - 1 → 0 ≤ rhs x ∧ rhs x < BASE16) →
      runVal BASE16 (Int16N_multiplyCore (fun _ => 0) lhs lhsOffset L
          rhs rhsOffset R) 0 (L + R) =
        runVal BASE16 lhs lhsOffset L * runVal BASE16 rhs rhsOffset R) := by
  have hmain : ∀ (B : ℤ), 2 ≤ B →
      ∀ (lhs rhs : Acc) (lhsOffset rhsOffset : ℤ) (L R : ℕ), 1 ≤ L → 1 ≤ R →
      (∀ x : ℤ, lhsOffset ≤ x → x ≤ lhsOffset + L - 1 → 0 ≤ lhs x ∧ lhs x < B) →
      (∀ x : ℤ, rhsOffset ≤ x → x ≤ rhsOffset + R - 1 → 0 ≤ rhs x ∧ rhs x < B) →
      runVal B (outerLoop B lhs lhsOffset (lhsOffset + L - 1) ((L : ℤ) + R) rhs R
          (rhsOffset + R - 1) 1 (fun _ => 0)) 0 (L + R) =
        runVal B lhs lhsOffset L * runVal B rhs rhsOffset R := by
    intro B hB lhs rhs lhsOffset rhsOffset L R hL1 hR1 hdl hdr
    have hspec := (outerLoop_spec B lhs lhsOffset (lhsOffset + (L : ℤ) - 1)
      ((L : ℤ) + R) rhs L hB (by omega) (by omega) hdl R (rhsOffset + (R : ℤ) - 1) 1
      (fun _ => 0)
      (fun x hx1 hx2 => hdr x (by omega) (by omega))
      (fun x hx1 hx2 => ⟨le_refl 0, by show (0 : ℤ) < B; omega⟩)).2
    rw [show ((L : ℤ) + R - 1 - (R : ℕ) + 1 - (L : ℕ)) = 0 from by ring]
      at hspec
    rw [show ((rhsOffset + (R : ℤ) - 1) - (R : ℕ) + 1) = rhsOffset from by
      ring] at hspec
    have hz : runVal B (fun _ => (0 : ℤ)) ((L : ℤ) + R - 1 - L + 1) L = 0 :=
      runVal_zero_run fun t ht => rfl
    rw [hz, zero_add] at hspec
    exact hspec
  refine ⟨?_, ?_, ?_⟩
  · intro lhs rhs lhsOffset rhsOffset L R hL1 hR1 hdl hdr
    rw [Int9N_multiplyCore_as_outer (fun _ => 0) ((L : ℤ) + R) 1 lhs lhsOffset
      (lhsOffset + L - 1) rhs rhsOffset (rhsOffset + R - 1) R (by omega)]
    exact hmain BASE9 (by decide) lhs rhs lhsOffset rhsOffset L R hL1 hR1 hdl hdr
  · intro lhs rhs lhsOffset rhsOffset L R hL1 hR1 hdl hdr
    rw [Int9N_multiplyCore_len_as_outerC (fun _ => 0) lhs lhsOffset L rhs rhsOffset R
      R (by omega)]
    rw [outerLoopC_eq_outerLoop BASE9 lhs lhsOffset (lhsOffset + (L : ℤ) - 1)
      ((L : ℤ) + R) rhs L (by decide) (by omega) (by omega) hdl R
      (rhsOffset + (R : ℤ) - 1) 1 (fun _ => 0)
      (fun x hx1 hx2 => hdr x (by omega) (by omega))
      (fun x hx1 hx2 => ⟨le_refl 0, by show (0 : ℤ) < BASE9; decide⟩)
      (fun x hx1 hx2 => rfl)]
    exact hmain BASE9 (by decide) lhs rhs lhsOffset rhsOffset L R hL1 hR1 hdl hdr
  · intro lhs rhs lhsOffset rhsOffset L R hL1 hR1 hdl hdr
    rw [Int16N_multiplyCore_as_outerC (fun _ => 0) lhs lhsOffset L rhs rhsOffset R
      R (by omega)]
    rw [outerLoopC_eq_outerLoop BASE16 lhs lhsOffset (lhsOffset + (L : ℤ) - 1)
      ((L : ℤ) + R) rhs L (by decide) (by omega) (by omega) hdl R
      (rhsOffset + (R : ℤ) - 1) 1 (fun _ => 0)
      (fun x hx1 hx2 => hdr x (by omega) (by omega))
      (fun x hx1 hx2 => ⟨le_refl 0, by show (0 : ℤ) < BASE16; decide⟩)
      (fun x hx1 hx2 => rfl)]
    exact hmain BASE16 (by decide) lhs rhs lhsOffset rhsOffset L R hL1 hR1 hdl hdr

/-- Witness for C1 amended: `3 * 5` through each of the three kernels. -/
theorem c1_amended_witness :
    (runVal BASE9 (Int9N_multiplyCore (fun _ => 0) ((1 : ℕ) + (1 : ℕ)) 1
        (fun _ => 3) 0 (0 + (1 : ℕ) - 1) (fun _ => 5) 0 (0 + (1 : ℕ) - 1)) 0
        ((1 : ℕ) + (1 : ℕ)) =
      runVal BASE9 (fun _ => 3) 0 1 * runVal BASE9 (fun _ => 5) 0 1) ∧
    (runVal BASE9 (Int9N_multiplyCore_len (fun _ => 0) (fun _ => 3) 0 (1 : ℕ)
        (fun _ => 5) 0 (1 : ℕ)) 0 ((1 : ℕ) + (1 : ℕ)) =
      runVal BASE9 (fun _ => 3) 0 1 * runVal BASE9 (fun _ => 5) 0 1) ∧
    (runVal BASE16 (Int16N_multiplyCore (fun _ => 0) (fun _ => 3) 0 (1 : ℕ)
        (fun _ => 5) 0 (1 : ℕ)) 0 ((1 : ℕ) + (1 : ℕ)) =
      runVal BASE16 (fun _ => 3) 0 1 * runVal BASE16 (fun _ => 5) 0 1) := by
  refine ⟨?_, ?_, ?_⟩
  · exact c1_amended.1 (fun _ => 3) (fun _ => 5) 0 0 1 1 le_rfl le_rfl
      (fun x h1 h2 => ⟨by show (0 : ℤ) ≤ 3; decide, by show (3 : ℤ) < BASE9; decide⟩)
      (fun x h1 h2 => ⟨by show (0 : ℤ) ≤ 5; decide, by show (5 : ℤ) < BASE9; decide⟩)
  · exact c1_amended.2.1 (fun _ => 3) (fun _ => 5) 0 0 1 1 le_rfl le_rfl
      (fun x h1 h2 => ⟨by show (0 : ℤ) ≤ 3; decide, by show (3 : ℤ) < BASE9; decide⟩)
      (fun x h1 h2 => ⟨by show (0 : ℤ) ≤ 5; decide, by show (5 : ℤ) < BASE9; decide⟩)
  · exact c1_amended.2.2 (fun _ => 3) (fun _ => 5) 0 0 1 1 le_rfl le_rfl
      (fun x h1 h2 => ⟨by show (0 : ℤ) ≤ 3; decide, by show (3 : ℤ) < BASE16; decide⟩)
      (fun x h1 h2 => ⟨by show (0 : ℤ) ≤ 5; decide, by show (5 : ℤ) < BASE16; decide⟩)

/-- C10: on a zero-initialized accumulator with valid non-empty in-range
windows, the computed-length base-10^9 kernel (`multiply-core.c`) produces
exactly the same accumulator as the explicit-shift base-10^9 kernel
(`int9.c` / `int-9.c`) called with `resultLength = lhsLength + rhsLength` and
`shift = 1`.  The two differ only in the final-carry write-back (conditional
vs unconditional): on a zero accumulator the unconditionally overwritten cell
always holds 0 when the carry is 0, so the write is a no-op. -/
theorem c10_len_kernel_refines_shift_kernel (lhs rhs : Acc)
    (lhsOffset rhsOffset : ℤ) (L R : ℕ) (hL1 : 1 ≤ L) (hR1 : 1 ≤ R)
    (hdl : ∀ x : ℤ, lhsOffset ≤ x → x ≤ lhsOffset + L - 1 → 0 ≤ lhs x ∧ lhs x < BASE9)
    (hdr : ∀ x : ℤ, rhsOffset ≤ x → x ≤ rhsOffset + R - 1 → 0 ≤ rhs x ∧ rhs x < BASE9) :
    Int9N_multiplyCore_len (fun _ => 0) lhs lhsOffset L rhs rhsOffset R =
      Int9N_multiplyCore (fun _ => 0) ((L : ℤ) + R) 1 lhs lhsOffset
        (lhsOffset + L - 1) rhs rhsOffset (rhsOffset + R - 1) := by
  rw [Int9N_multiplyCore_len_as_outerC (fun _ => 0) lhs lhsOffset L rhs rhsOffset R
    R (by omega)]
  rw [Int9N_multiplyCore_as_outer (fun _ => 0) ((L : ℤ) + R) 1 lhs lhsOffset
    (lhsOffset + L - 1) rhs rhsOffset (rhsOffset + R - 1) R (by omega)]
  exact outerLoopC_eq_outerLoop BASE9 lhs lhsOffset (lhsOffset + (L : ℤ) - 1)
    ((L : ℤ) + R) rhs L (by decide) (by omega) (by omega) hdl R
    (rhsOffset + (R : ℤ) - 1) 1 (fun _ => 0)
    (fun x hx1 hx2 => hdr x (by omega) (by omega))
    (fun x hx1 hx2 => ⟨le_refl 0, by show (0 : ℤ) < BASE9; decide⟩)
    (fun x hx1 hx2 => rfl)

/-- Witness for C10: `3 * 5` through both base-10^9 kernels gives identical
accumulator functions. -/
theorem c10_len_kernel_refines_shift_kernel_witness :
    Int9N_multiplyCore_len (fun _ => 0) (fun _ => 3) 0 (1 : ℕ) (fun _ => 5) 0
        (1 : ℕ) =
      Int9N_multiplyCore (fun _ => 0) ((1 : ℕ) + (1 : ℕ)) 1 (fun _ => 3) 0
        (0 + (1 : ℕ) - 1) (fun _ => 5) 0 (0 + (1 : ℕ) - 1) :=
  c10_len_kernel_refines_shift_kernel (fun _ => 3) (fun _ => 5) 0 0 1 1 le_rfl le_rfl
    (fun x h1 h2 => ⟨by show (0 : ℤ) ≤ 3; decide, by show (3 : ℤ) < BASE9; decide⟩)
    (fun x h1 h2 => ⟨by show (0 : ℤ) ≤ 5; decide, by show (5 : ℤ) < BASE9; decide⟩)

/-- C2 as stated is false: after the inner loop the explicit-shift kernel
executes `result[k] = carry`, an assignment, not `result[k] += carry`.
Concretely (`lhs = [1]`, `rhs = [1]`, `shift = 1`, `resultLength = 2`,
accumulator pre-populated to `[5, 0]`): the final carry is 0 and the claim
predicts `result[0] = 5 + 0 = 5`, but the kernel leaves `result[0] = 0`. -/
theorem c2_counterexample :
    Int9N_multiplyCore (fun x => if x = 0 then 5 else 0) 2 1 (fun _ => 1) 0 0
        (fun _ => 1) 0 0 0 = 0 ∧
      ¬(Int9N_multiplyCore (fun x => if x = 0 then 5 else 0) 2 1 (fun _ => 1) 0 0
          (fun _ => 1) 0 0 0 = 5 + 0) := by
  exact ⟨by decide, by decide⟩

/-- C2 amended: after each row's inner loop the kernel *assigns* the
remaining carry to the accumulator cell one position more significant than
the last inner-loop write, discarding (not preserving) any prior value of
that cell.  For a single-row call: (a) the pre-call content `v` of that cell
has no influence on the kernel's output, and (b) afterwards the cell holds
exactly the row's final carry.  (The computed-length kernels skip the
assignment when the carry is 0; the code's debug assertion
`ASSERT(result[k] == 0)` documents the zero-cell assumption that makes
assignment coincide with addition.) -/
theorem c2_amended (result lhs rhs : Acc)
    (RL shift lhsOffset lhsMax rhsOffset v : ℤ) (hLw : lhsOffset ≤ lhsMax) :
    (Int9N_multiplyCore (writeA result (RL - shift - (lhsMax - lhsOffset + 1)) v)
        RL shift lhs lhsOffset lhsMax rhs rhsOffset rhsOffset =
      Int9N_multiplyCore result RL shift lhs lhsOffset lhsMax rhs rhsOffset
        rhsOffset) ∧
      Int9N_multiplyCore result RL shift lhs lhsOffset lhsMax rhs rhsOffset rhsOffset
          (RL - shift - (lhsMax - lhsOffset + 1)) =
        (innerLoop BASE9 lhs (rhs rhsOffset) (lhsMax - lhsOffset + 1).toNat lhsMax
          (RL - shift) 0 result).1 := by
  have hone : (rhsOffset - rhsOffset + 1).toNat = 1 := by omega
  set L : ℕ := (lhsMax - lhsOffset + 1).toNat with hLdef
  have hLz : (L : ℤ) = lhsMax - lhsOffset + 1 := by omega
  set p : ℤ := RL - shift - (lhsMax - lhsOffset + 1) with hp
  have hred : ∀ a : Acc,
      Int9N_multiplyCore a RL shift lhs lhsOffset lhsMax rhs rhsOffset rhsOffset =
        writeA (innerLoop BASE9 lhs (rhs rhsOffset) L lhsMax (RL - shift) 0 a).2.2
          (innerLoop BASE9 lhs (rhs rhsOffset) L lhsMax (RL - shift) 0 a).2.1
          (innerLoop BASE9 lhs (rhs rhsOffset) L lhsMax (RL - shift) 0 a).1 := by
    intro a
    rw [Int9N_multiplyCore_as_outer a RL shift lhs lhsOffset lhsMax rhs rhsOffset
      rhsOffset 1 hone]
    simp only [outerLoop]
  have hk := fun a => innerLoop_k BASE9 lhs (rhs rhsOffset) L lhsMax (RL - shift) 0 a
  constructor
  · rw [hred, hred]
    have hcong := innerLoop_congr BASE9 lhs lhs (rhs rhsOffset) L lhsMax (RL - shift)
      0 (writeA result p v) result (fun t ht => rfl)
      (fun t ht => writeA_other _ _ _ _ (by
        have ht' : (t : ℤ) < L := by exact_mod_cast ht
        omega))
    funext x
    by_cases hx1 : x = RL - shift - L
    · rw [hx1, ← hk (writeA result p v), writeA_same, hk (writeA result p v),
        ← hk result, writeA_same]
      exact hcong.1
    · rw [writeA_other _ _ _ _ (by rw [hk (writeA result p v)]; exact hx1),
        writeA_other _ _ _ _ (by rw [hk result]; exact hx1)]
      by_cases hx2 : x ≤ RL - shift - L
      · rw [innerLoop_frame BASE9 lhs (rhs rhsOffset) L lhsMax (RL - shift) 0
          (writeA result p v) x (Or.inl (by omega)),
          innerLoop_frame BASE9 lhs (rhs rhsOffset) L lhsMax (RL - shift) 0
          result x (Or.inl (by omega))]
        exact writeA_other _ _ _ _ (by omega)
      · by_cases hx3 : x ≤ RL - shift
        · have hT : x = RL - shift - ((RL - shift - x).toNat : ℤ) := by
            rw [Int.toNat_of_nonneg (by omega)]; ring
          have hTlt : (RL - shift - x).toNat < L := by omega
          have := hcong.2 (RL - shift - x).toNat hTlt
          rwa [← hT] at this
        · rw [innerLoop_frame BASE9 lhs (rhs rhsOffset) L lhsMax (RL - shift) 0
            (writeA result p v) x (Or.inr (by omega)),
            innerLoop_frame BASE9 lhs (rhs rhsOffset) L lhsMax (RL - shift) 0
            result x (Or.inr (by omega))]
          exact writeA_other _ _ _ _ (by omega)
  · rw [hred]
    rw [show p = (innerLoop BASE9 lhs (rhs rhsOffset) L lhsMax (RL - shift) 0
      result).2.1 from by rw [hk result]; omega]
    rw [writeA_same]

/-- Witness for C2 amended: at the concrete single-row call
(`lhs = [1]`, `rhs = [1]`, `shift = 1`, `resultLength = 2`, pre-value 7 in
the carry cell) the pre-value is discarded and the cell ends up holding the
row carry. -/
theorem c2_amended_witness :
    (Int9N_multiplyCore (writeA (fun _ => 0) (2 - 1 - (0 - 0 + 1)) 7) 2 1
        (fun _ => 1) 0 0 (fun _ => 1) 0 0 =
      Int9N_multiplyCore (fun _ => 0) 2 1 (fun _ => 1) 0 0 (fun _ => 1) 0 0) ∧
      Int9N_multiplyCore (fun _ => 0) 2 1 (fun _ => 1) 0 0 (fun _ => 1) 0 0
          (2 - 1 - ((0 : ℤ) - 0 + 1)) =
        (innerLoop BASE9 (fun _ => 1) 1 ((0 : ℤ) - 0 + 1).toNat 0
          (2 - 1) 0 (fun _ => 0)).1 :=
  c2_amended (fun _ => 0) (fun _ => 1) (fun _ => 1) 2 1 0 0 0 7 le_rfl

/-- C8 as stated is false for the explicit-shift kernel: with an all-zero rhs
window the per-row final-carry cells are still overwritten (with 0), so a
pre-populated non-zero cell there is destroyed.  Concretely (`lhs = [1]`,
`rhs = [0]`, `shift = 1`, `resultLength = 2`, accumulator `[5, 7]`) cell 0
ends as 0, not 5. -/
theorem c8_counterexample :
    Int9N_multiplyCore (fun x => if x = 0 then 5 else if x = 1 then 7 else 0) 2 1
        (fun _ => 1) 0 0 (fun _ => 0) 0 0 0 = 0 ∧
      Int9N_multiplyCore (fun x => if x = 0 then 5 else if x = 1 then 7 else 0) 2 1
        (fun _ => 1) 0 0 (fun _ => 0) 0 0 1 = 7 ∧
      ¬(Int9N_multiplyCore (fun x => if x = 0 then 5 else if x = 1 then 7 else 0) 2 1
          (fun _ => 1) 0 0 (fun _ => 0) 0 0 0 = 5) := by
  exact ⟨by decide, by decide, by decide⟩

/-- C8 amended: multiplying by an all-zero rhs window leaves the accumulator
bit-for-bit unchanged for the computed-length kernels (`multiply-core.c`,
`multiply-core-16.c`), whose final-carry write-back is guarded by
`if (carry > 0)`.  The explicit-shift kernel (`int-9.c` / `int9.c`) instead
assigns 0 to the per-row final-carry cells
`[resultLength - shift - rhsLength - lhsLength + 1,
resultLength - shift - lhsLength]` and leaves every other cell unchanged. -/
theorem c8_amended :
    (∀ (result lhs rhs : Acc) (lhsOffset rhsOffset : ℤ) (L R : ℕ), 1 ≤ L → 1 ≤ R →
      (∀ x : ℤ, rhsOffset ≤ x → x ≤ rhsOffset + R - 1 → rhs x = 0) →
      (∀ x : ℤ, 0 ≤ x → x ≤ (L : ℤ) + R - 1 → result x < BASE9) →
      Int9N_multiplyCore_len result lhs lhsOffset L rhs rhsOffset R = result) ∧
    (∀ (result lhs rhs : Acc) (lhsOffset rhsOffset : ℤ) (L R : ℕ), 1 ≤ L → 1 ≤ R →
      (∀ x : ℤ, rhsOffset ≤ x → x ≤ rhsOffset + R - 1 → rhs x = 0) →
      (∀ x : ℤ, 0 ≤ x → x ≤ (L : ℤ) + R - 1 → result x < BASE16) →
      Int16N_multiplyCore result lhs lhsOffset L rhs rhsOffset R = result) ∧
    (∀ (result lhs rhs : Acc) (RL shift lhsOffset lhsMax rhsOffset rhsMax : ℤ),
      lhsOffset ≤ lhsMax → rhsOffset ≤ rhsMax →
      (∀ x : ℤ, rhsOffset ≤ x → x ≤ rhsMax → rhs x = 0) →
      (∀ x : ℤ, RL - shift - (rhsMax - rhsOffset + 1) + 1 - (lhsMax - lhsOffset + 1)
          ≤ x → x ≤ RL - shift → result x < BASE9) →
      ∀ x : ℤ,
        Int9N_multiplyCore result RL shift lhs lhsOffset lhsMax rhs rhsOffset
            rhsMax x =
          if RL - shift - (rhsMax - rhsOffset + 1) + 1 - (lhsMax - lhsOffset + 1)
              ≤ x ∧ x ≤ RL - shift - (lhsMax - lhsOffset + 1) then 0
          else result x) := by
  refine ⟨?_, ?_, ?_⟩
  · intro result lhs rhs lhsOffset rhsOffset L R hL1 hR1 hrz hacc
    rw [Int9N_multiplyCore_len_as_outerC result lhs lhsOffset L rhs rhsOffset R R
      (by omega)]
    exact (outerLoopC_zero_rhs BASE9 lhs lhsOffset (lhsOffset + (L : ℤ) - 1)
      ((L : ℤ) + R) rhs L (by omega) R (rhsOffset + (R : ℤ) - 1) 1 result
      (fun x hx1 hx2 => hrz x (by omega) (by omega))
      (fun x hx1 hx2 => hacc x (by omega) (by omega))).2
  · intro result lhs rhs lhsOffset rhsOffset L R hL1 hR1 hrz hacc
    rw [Int16N_multiplyCore_as_outerC result lhs lhsOffset L rhs rhsOffset R R
      (by omega)]
    exact (outerLoopC_zero_rhs BASE16 lhs lhsOffset (lhsOffset + (L : ℤ) - 1)
      ((L : ℤ) + R) rhs L (by omega) R (rhsOffset + (R : ℤ) - 1) 1 result
      (fun x hx1 hx2 => hrz x (by omega) (by omega))
      (fun x hx1 hx2 => hacc x (by omega) (by omega))).2
  · intro result lhs rhs RL shift lhsOffset lhsMax rhsOffset rhsMax hLw hRw hrz hacc x
    rw [Int9N_multiplyCore_as_outer result RL shift lhs lhsOffset lhsMax rhs
      rhsOffset rhsMax (rhsMax - rhsOffset + 1).toNat rfl]
    rw [outerLoop_zero_rhs BASE9 lhs lhsOffset lhsMax RL rhs
      (lhsMax - lhsOffset + 1).toNat (by decide) rfl (rhsMax - rhsOffset + 1).toNat
      rhsMax shift result
      (fun y hy1 hy2 => hrz y (by omega) (by omega))
      (fun y hy1 hy2 => hacc y (by omega) (by omega)) x]
    by_cases hc : RL - shift - (rhsMax - rhsOffset + 1) + 1 - (lhsMax - lhsOffset + 1)
        ≤ x ∧ x ≤ RL - shift - (lhsMax - lhsOffset + 1)
    · rw [if_pos (by omega), if_pos hc]
    · rw [if_neg (by omega), if_neg hc]

/-- Witness for C8 amended: at a concrete call with `rhs` window `[0]` and
accumulator `[5, 7]` the computed-length kernels leave the accumulator
unchanged, while the explicit-shift kernel zeroes exactly the final-carry
cell (index 0) and preserves cell 1. -/
theorem c8_amended_witness :
    (Int9N_multiplyCore_len (fun x => if x = 0 then 5 else if x = 1 then 7 else 0)
        (fun _ => 1) 0 (1 : ℕ) (fun _ => 0) 0 (1 : ℕ) =
      fun x => if x = 0 then 5 else if x = 1 then 7 else 0) ∧
      Int9N_multiplyCore (fun x => if x = 0 then 5 else if x = 1 then 7 else 0) 2 1
          (fun _ => 1) 0 0 (fun _ => 0) 0 0 0 =
        (if ((2 : ℤ) - 1 - (0 - 0 + 1) + 1 - (0 - 0 + 1) ≤ 0 ∧
            (0 : ℤ) ≤ 2 - 1 - (0 - 0 + 1)) then 0
          else (5 : ℤ)) := by
  constructor
  · exact c8_amended.1 (fun x => if x = 0 then 5 else if x = 1 then 7 else 0)
      (fun _ => 1) (fun _ => 0) 0 0 1 1 le_rfl le_rfl (fun x h1 h2 => rfl)
      (fun x h1 h2 => by
        by_cases h0 : x = 0
        · simp only [h0]; show (5 : ℤ) < BASE9; decide
        · by_cases h1e : x = 1
          · simp only [h1e]; show ite ((1 : ℤ) = 0) 5 (ite ((1 : ℤ) = 1) 7 0) < BASE9
            decide
          · simp only [h0, h1e, if_false]; show (0 : ℤ) < BASE9; decide)
  · have h := (c8_amended.2.2 (fun x => if x = 0 then 5 else if x = 1 then 7 else 0)
      (fun _ => 1) (fun _ => 0) 2 1 0 0 0 0 le_rfl le_rfl (fun x h1 h2 => rfl)
      (fun x h1 h2 => by
        by_cases h0 : x = 0
        · simp only [h0]; show (5 : ℤ) < BASE9; decide
        · by_cases h1e : x = 1
          · simp only [h1e]; show ite ((1 : ℤ) = 0) 5 (ite ((1 : ℤ) = 1) 7 0) < BASE9
            decide
          · simp only [h0, h1e, if_false]; show (0 : ℤ) < BASE9; decide)) 0
    exact h

/-- C9: provided all digits are in `[0, BASE)` (which keeps the carry below
`BASE` at every step, as established on the inner loop itself), the per-step
intermediate `carry + lhs[j] * rhsDigit` stays within the widened type: below
`2^63` for the base-10^9 instantiation (`jlong` / `INT64`) and below `2^127`
for the base-10^16 instantiation (`__int128_t`), and is never negative, so
the `/` and `%` by `BASE` are exact. -/
theorem c9_product_fits_intermediate :
    (∀ (lhs a : Acc) (r j k : ℤ) (L t : ℕ), t < L →
      (∀ u : ℕ, u < L → 0 ≤ lhs (j - u) ∧ lhs (j - u) < BASE9) →
      0 ≤ r → r < BASE9 →
      (∀ u : ℕ, u < L → 0 ≤ a (k - u) ∧ a (k - u) < BASE9) →
      0 ≤ (innerLoop BASE9 lhs r t j k 0 a).1 + lhs (j - t) * r ∧
        (innerLoop BASE9 lhs r t j k 0 a).1 + lhs (j - t) * r < 2 ^ 63) ∧
    (∀ (lhs a : Acc) (r j k : ℤ) (L t : ℕ), t < L →
      (∀ u : ℕ, u < L → 0 ≤ lhs (j - u) ∧ lhs (j - u) < BASE16) →
      0 ≤ r → r < BASE16 →
      (∀ u : ℕ, u < L → 0 ≤ a (k - u) ∧ a (k - u) < BASE16) →
      0 ≤ (innerLoop BASE16 lhs r t j k 0 a).1 + lhs (j - t) * r ∧
        (innerLoop BASE16 lhs r t j k 0 a).1 + lhs (j - t) * r < 2 ^ 127) := by
  constructor
  · intro lhs a r j k L t ht hdl hr0 hrB hacc
    have hc := (innerLoop_range BASE9 lhs r (by decide) ⟨hr0, hrB⟩ t j k 0 a
      ⟨le_rfl, by decide⟩ (fun u hu => hdl u (by omega))
      (fun u hu => hacc u (by omega))).1
    have hd := hdl t ht
    have hmul : lhs (j - t) * r ≤ (BASE9 - 1) * (BASE9 - 1) :=
      mul_le_mul (by linarith [hd.2]) (by linarith) hr0 (by decide)
    constructor
    · have := mul_nonneg hd.1 hr0
      linarith [hc.1]
    · have h2 : (BASE9 - 1) * (BASE9 - 1) + BASE9 < 2 ^ 63 := by decide
      linarith [hc.2]
  · intro lhs a r j k L t ht hdl hr0 hrB hacc
    have hc := (innerLoop_range BASE16 lhs r (by decide) ⟨hr0, hrB⟩ t j k 0 a
      ⟨le_rfl, by decide⟩ (fun u hu => hdl u (by omega))
      (fun u hu => hacc u (by omega))).1
    have hd := hdl t ht
    have hmul : lhs (j - t) * r ≤ (BASE16 - 1) * (BASE16 - 1) :=
      mul_le_mul (by linarith [hd.2]) (by linarith) hr0 (by decide)
    constructor
    · have := mul_nonneg hd.1 hr0
      linarith [hc.1]
    · have h2 : (BASE16 - 1) * (BASE16 - 1) + BASE16 < 2 ^ 127 := by
        norm_num [BASE16]
      linarith [hc.2]

/-- Witness for C9: one inner-loop step on the extreme digits `BASE - 1`. -/
theorem c9_product_fits_intermediate_witness :
    (0 ≤ (innerLoop BASE9 (fun _ => 999999999) 999999999 1 0 5 0
          (fun _ => 0)).1 + (fun _ => (999999999 : ℤ)) (0 - 1) * 999999999 ∧
        (innerLoop BASE9 (fun _ => 999999999) 999999999 1 0 5 0
          (fun _ => 0)).1 + (fun _ => (999999999 : ℤ)) (0 - 1) * 999999999 < 2 ^ 63) ∧
      0 ≤ (innerLoop BASE16 (fun _ => 9999999999999999) 9999999999999999 1 0 5 0
          (fun _ => 0)).1 +
          (fun _ => (9999999999999999 : ℤ)) (0 - 1) * 9999999999999999 ∧
        (innerLoop BASE16 (fun _ => 9999999999999999) 9999999999999999 1 0 5 0
          (fun _ => 0)).1 +
          (fun _ => (9999999999999999 : ℤ)) (0 - 1) * 9999999999999999 < 2 ^ 127 := by
  constructor
  · exact c9_product_fits_intermediate.1 (fun _ => 999999999) (fun _ => 0)
      999999999 0 5 2 1 (by omega)
      (fun u hu => ⟨by show (0 : ℤ) ≤ 999999999; decide,
        by show (999999999 : ℤ) < BASE9; decide⟩)
      (by decide) (by decide)
      (fun u hu => ⟨by show (0 : ℤ) ≤ 0; decide, by show (0 : ℤ) < BASE9; decide⟩)
  · exact c9_product_fits_intermediate.2 (fun _ => 9999999999999999) (fun _ => 0)
      9999999999999999 0 5 2 1 (by omega)
      (fun u hu => ⟨by show (0 : ℤ) ≤ 9999999999999999; decide,
        by show (9999999999999999 : ℤ) < BASE16; decide⟩)
      (by decide) (by decide)
      (fun u hu => ⟨by show (0 : ℤ) ≤ 0; decide, by show (0 : ℤ) < BASE16; decide⟩)

/-- C6: for valid non-empty windows with `shift ≥ 1` and
`resultLength ≥ shift + lhsLength + rhsLength - 1`, the kernel touches the
accumulator only inside `[0, resultLength)` (cells outside keep their values,
including the negative index side), and its entire output on `[0,
resultLength)` depends only on the contents of the declared windows: changing
`lhs`, `rhs` or the accumulator outside their windows cannot change the
result.  The kernels never mutate `lhs` or `rhs` — in this embedding they are
read-only inputs, and the extensionality conjunct certifies they are read
only inside their windows.  Stated for the explicit-shift base-10^9 kernel
and the computed-length base-10^16 kernel. -/
theorem c6_memory_safety :
    (∀ (result lhs rhs : Acc) (RL shift lhsOffset lhsMax rhsOffset rhsMax : ℤ),
      0 ≤ lhsOffset → lhsOffset ≤ lhsMax → 0 ≤ rhsOffset → rhsOffset ≤ rhsMax →
      1 ≤ shift →
      shift + (lhsMax - lhsOffset + 1) + (rhsMax - rhsOffset + 1) - 1 ≤ RL →
      (∀ x : ℤ, x < 0 ∨ RL ≤ x →
        Int9N_multiplyCore result RL shift lhs lhsOffset lhsMax rhs rhsOffset
          rhsMax x = result x) ∧
      (∀ lhs2 rhs2 result2 : Acc,
        (∀ x : ℤ, lhsOffset ≤ x → x ≤ lhsMax → lhs x = lhs2 x) →
        (∀ x : ℤ, rhsOffset ≤ x → x ≤ rhsMax → rhs x = rhs2 x) →
        (∀ x : ℤ, 0 ≤ x → x < RL → result x = result2 x) →
        ∀ x : ℤ, 0 ≤ x → x < RL →
          Int9N_multiplyCore result RL shift lhs lhsOffset lhsMax rhs rhsOffset
              rhsMax x =
            Int9N_multiplyCore result2 RL shift lhs2 lhsOffset lhsMax rhs2
              rhsOffset rhsMax x)) ∧
    (∀ (result lhs rhs : Acc) (lhsOffset lhsLength rhsOffset rhsLength : ℤ),
      0 ≤ lhsOffset → 1 ≤ lhsLength → 0 ≤ rhsOffset → 1 ≤ rhsLength →
      (∀ x : ℤ, x < 0 ∨ lhsLength + rhsLength ≤ x →
        Int16N_multiplyCore result lhs lhsOffset lhsLength rhs rhsOffset
          rhsLength x = result x) ∧
      (∀ lhs2 rhs2 result2 : Acc,
        (∀ x : ℤ, lhsOffset ≤ x → x ≤ lhsOffset + lhsLength - 1 → lhs x = lhs2 x) →
        (∀ x : ℤ, rhsOffset ≤ x → x ≤ rhsOffset + rhsLength - 1 → rhs x = rhs2 x) →
        (∀ x : ℤ, 0 ≤ x → x < lhsLength + rhsLength → result x = result2 x) →
        ∀ x : ℤ, 0 ≤ x → x < lhsLength + rhsLength →
          Int16N_multiplyCore result lhs lhsOffset lhsLength rhs rhsOffset
              rhsLength x =
            Int16N_multiplyCore result2 lhs2 lhsOffset lhsLength rhs2 rhsOffset
              rhsLength x)) := by
  constructor
  · intro result lhs rhs RL shift lhsOffset lhsMax rhsOffset rhsMax hlo hLw hro hRw
      hs hRL
    constructor
    · intro x hx
      rw [Int9N_multiplyCore_as_outer result RL shift lhs lhsOffset lhsMax rhs
        rhsOffset rhsMax (rhsMax - rhsOffset + 1).toNat rfl]
      refine outerLoop_frame BASE9 lhs lhsOffset lhsMax RL rhs
        (lhsMax - lhsOffset + 1).toNat rfl (rhsMax - rhsOffset + 1).toNat rhsMax
        shift result x ?_
      rcases hx with h | h
      · left; omega
      · right; omega
    · intro lhs2 rhs2 result2 helhs herhs heres x hx0 hxRL
      rw [Int9N_multiplyCore_as_outer result RL shift lhs lhsOffset lhsMax rhs
        rhsOffset rhsMax (rhsMax - rhsOffset + 1).toNat rfl,
        Int9N_multiplyCore_as_outer result2 RL shift lhs2 lhsOffset lhsMax rhs2
        rhsOffset rhsMax (rhsMax - rhsOffset + 1).toNat rfl]
      by_cases hin : RL - shift - (rhsMax - rhsOffset + 1).toNat + 1 -
          (lhsMax - lhsOffset + 1).toNat ≤ x ∧ x ≤ RL - shift
      · exact outerLoop_congr BASE9 lhs lhs2 lhsOffset lhsMax RL rhs rhs2
          (lhsMax - lhsOffset + 1).toNat rfl (rhsMax - rhsOffset + 1).toNat rhsMax
          shift result result2 helhs
          (fun y hy1 hy2 => herhs y (by omega) hy2)
          (fun y hy1 hy2 => heres y (by omega) (by omega)) x hin.1 hin.2
      · rw [outerLoop_frame BASE9 lhs lhsOffset lhsMax RL rhs
          (lhsMax - lhsOffset + 1).toNat rfl (rhsMax - rhsOffset + 1).toNat rhsMax
          shift result x (by omega),
          outerLoop_frame BASE9 lhs2 lhsOffset lhsMax RL rhs2
          (lhsMax - lhsOffset + 1).toNat rfl (rhsMax - rhsOffset + 1).toNat rhsMax
          shift result2 x (by omega)]
        exact heres x hx0 hxRL
  · intro result lhs rhs lhsOffset lhsLength rhsOffset rhsLength hlo hL1 hro hR1
    constructor
    · intro x hx
      rw [Int16N_multiplyCore_as_outerC result lhs lhsOffset lhsLength rhs rhsOffset
        rhsLength (rhsOffset + rhsLength - 1 - rhsOffset + 1).toNat rfl]
      refine outerLoopC_frame BASE16 lhs lhsOffset (lhsOffset + lhsLength - 1)
        (lhsLength + rhsLength) rhs (lhsOffset + lhsLength - 1 - lhsOffset + 1).toNat
        rfl (rhsOffset + rhsLength - 1 - rhsOffset + 1).toNat
        (rhsOffset + rhsLength - 1) 1 0 result x ?_
      rcases hx with h | h
      · left; omega
      · right; omega
    · intro lhs2 rhs2 result2 helhs herhs heres x hx0 hxRL
      rw [Int16N_multiplyCore_as_outerC result lhs lhsOffset lhsLength rhs rhsOffset
        rhsLength (rhsOffset + rhsLength - 1 - rhsOffset + 1).toNat rfl,
        Int16N_multiplyCore_as_outerC result2 lhs2 lhsOffset lhsLength rhs2 rhsOffset
        rhsLength (rhsOffset + rhsLength - 1 - rhsOffset + 1).toNat rfl]
      refine (outerLoopC_congr BASE16 lhs lhs2 lhsOffset (lhsOffset + lhsLength - 1)
        (lhsLength + rhsLength) rhs rhs2
        (lhsOffset + lhsLength - 1 - lhsOffset + 1).toNat rfl
        (rhsOffset + rhsLength - 1 - rhsOffset + 1).toNat (rhsOffset + rhsLength - 1)
        1 0 result result2
        (fun y hy1 hy2 => helhs y hy1 (by omega))
        (fun y hy1 hy2 => herhs y (by omega) (by omega))
        (fun y hy1 hy2 => heres y (by omega) (by omega))).2 x (by omega) (by omega)

/-- Witness for C6: a concrete valid call of each kernel — a write-bounds
instance at the negative index `-1` and a read-extensionality instance where
the out-of-window data differs. -/
theorem c6_memory_safety_witness :
    (Int9N_multiplyCore (fun _ => 0) 2 1 (fun _ => 3) 0 0 (fun _ => 5) 0 0 (-1) =
      (fun _ => (0 : ℤ)) (-1)) ∧
      Int16N_multiplyCore (fun _ => 0) (fun _ => 3) 0 1 (fun _ => 5) 0 1 0 =
        Int16N_multiplyCore (fun x => if x < 0 then 99 else 0)
          (fun x => if x = 0 then 3 else 77) 0 1
          (fun x => if x = 0 then 5 else 88) 0 1 0 := by
  constructor
  · exact ((c6_memory_safety.1 (fun _ => 0) (fun _ => 3) (fun _ => 5) 2 1 0 0 0 0
      le_rfl le_rfl le_rfl le_rfl le_rfl (by decide)).1 (-1) (Or.inl (by decide)))
  · refine ((c6_memory_safety.2 (fun _ => 0) (fun _ => 3) (fun _ => 5) 0 1 0 1
      le_rfl le_rfl le_rfl le_rfl).2 (fun x => if x = 0 then 3 else 77)
      (fun x => if x = 0 then 5 else 88) (fun x => if x < 0 then 99 else 0)
      ?_ ?_ ?_ 0 le_rfl (by decide))
    · intro y hy1 hy2
      have hy : y = 0 := by omega
      simp [hy]
    · intro y hy1 hy2
      have hy : y = 0 := by omega
      simp [hy]
    · intro y hy1 hy2
      simp [show ¬(y < 0) from by omega]

/-- C5: provided every lhs, rhs and pre-call accumulator digit in the touched
region is in `[0, BASE9)`, for BOTH base-10^9 kernels — the explicit-shift
kernel of `int-9.c`/`int9.c` and the computed-length kernel of
`multiply-core.c`:
(i)/(iv) within every outer row `m`, after every number `t` of inner-loop
steps of that row, the carry is in `[0, BASE9)` — in particular the division
followed by the conditional increment never reaches `BASE9`; for the
computed-length kernel the row's carry-in is its actual threaded carry;
(ii) the computed-length kernel's threaded carry is 0 at every row boundary
(the explicit-shift kernel resets `carry = 0` at the top of every row by
construction);
(iii)/(v) after any number of rows of either kernel, every accumulator cell
in the touched region is in `[0, BASE9)` — every value written is a valid
digit. -/
theorem c5_carry_bounded (lhs rhs result : Acc)
    (lhsOffset lhsMax rhsOffset rhsMax RL shift : ℤ) (L R : ℕ)
    (hLw : lhsOffset ≤ lhsMax) (hRw : rhsOffset ≤ rhsMax)
    (hL : (lhsMax - lhsOffset + 1).toNat = L) (hR : (rhsMax - rhsOffset + 1).toNat = R)
    (hdl : ∀ x : ℤ, lhsOffset ≤ x → x ≤ lhsMax → 0 ≤ lhs x ∧ lhs x < BASE9)
    (hdr : ∀ x : ℤ, rhsOffset ≤ x → x ≤ rhsMax → 0 ≤ rhs x ∧ rhs x < BASE9)
    (hacc : ∀ x : ℤ, RL - shift - R + 1 - L ≤ x → x ≤ RL - shift →
      0 ≤ result x ∧ result x < BASE9) :
    (∀ m t : ℕ, m < R → t ≤ L →
      0 ≤ (innerLoop BASE9 lhs (rhs (rhsMax - m)) t lhsMax (RL - (shift + m)) 0
            (outerLoop BASE9 lhs lhsOffset lhsMax RL rhs m rhsMax shift result)).1 ∧
        (innerLoop BASE9 lhs (rhs (rhsMax - m)) t lhsMax (RL - (shift + m)) 0
            (outerLoop BASE9 lhs lhsOffset lhsMax RL rhs m rhsMax shift
              result)).1 < BASE9) ∧
    (∀ m : ℕ, m ≤ R →
      (outerLoopC BASE9 lhs lhsOffset lhsMax RL rhs m rhsMax shift 0 result).1 = 0) ∧
    (∀ m : ℕ, m ≤ R → ∀ x : ℤ, RL - shift - m + 1 - L ≤ x → x ≤ RL - shift →
      0 ≤ outerLoop BASE9 lhs lhsOffset lhsMax RL rhs m rhsMax shift result x ∧
        outerLoop BASE9 lhs lhsOffset lhsMax RL rhs m rhsMax shift result x <
          BASE9) ∧
    (∀ m t : ℕ, m < R → t ≤ L →
      0 ≤ (innerLoop BASE9 lhs (rhs (rhsMax - m)) t lhsMax (RL - (shift + m))
            (outerLoopC BASE9 lhs lhsOffset lhsMax RL rhs m rhsMax shift 0
              result).1
            (outerLoopC BASE9 lhs lhsOffset lhsMax RL rhs m rhsMax shift 0
              result).2).1 ∧
        (innerLoop BASE9 lhs (rhs (rhsMax - m)) t lhsMax (RL - (shift + m))
            (outerLoopC BASE9 lhs lhsOffset lhsMax RL rhs m rhsMax shift 0
              result).1
            (outerLoopC BASE9 lhs lhsOffset lhsMax RL rhs m rhsMax shift 0
              result).2).1 < BASE9) ∧
    (∀ m : ℕ, m ≤ R → ∀ x : ℤ, RL - shift - m + 1 - L ≤ x → x ≤ RL - shift →
      0 ≤ (outerLoopC BASE9 lhs lhsOffset lhsMax RL rhs m rhsMax shift 0
          result).2 x ∧
        (outerLoopC BASE9 lhs lhsOffset lhsMax RL rhs m rhsMax shift 0
          result).2 x < BASE9) := by
  have hrange : ∀ m : ℕ, m ≤ R →
      ∀ x : ℤ, RL - shift - m + 1 - L ≤ x → x ≤ RL - shift →
      0 ≤ outerLoop BASE9 lhs lhsOffset lhsMax RL rhs m rhsMax shift result x ∧
        outerLoop BASE9 lhs lhsOffset lhsMax RL rhs m rhsMax shift result x <
          BASE9 := by
    intro m hm
    exact (outerLoop_spec BASE9 lhs lhsOffset lhsMax RL rhs L (by decide) hLw hL hdl
      m rhsMax shift result
      (fun x hx1 hx2 => hdr x (by omega) hx2)
      (fun x hx1 hx2 => hacc x (by omega) hx2)).1
  have hC : ∀ m : ℕ, m ≤ R →
      (outerLoopC BASE9 lhs lhsOffset lhsMax RL rhs m rhsMax shift 0 result).1
          = 0 ∧
        ∀ x : ℤ, RL - shift - m + 1 - L ≤ x → x ≤ RL - shift →
          0 ≤ (outerLoopC BASE9 lhs lhsOffset lhsMax RL rhs m rhsMax shift 0
              result).2 x ∧
            (outerLoopC BASE9 lhs lhsOffset lhsMax RL rhs m rhsMax shift 0
              result).2 x < BASE9 := by
    intro m hm
    exact outerLoopC_carry BASE9 lhs lhsOffset lhsMax RL rhs L (by decide) hLw hL
      hdl m rhsMax shift result
      (fun x hx1 hx2 => hdr x (by omega) hx2)
      (fun x hx1 hx2 => hacc x (by omega) hx2)
  refine ⟨?_, fun m hm => (hC m hm).1, hrange, ?_, fun m hm => (hC m hm).2⟩
  · intro m t hm ht
    refine (innerLoop_range BASE9 lhs (rhs (rhsMax - m)) (by decide)
      (hdr (rhsMax - m) (by omega) (by omega)) t lhsMax (RL - (shift + m)) 0
      (outerLoop BASE9 lhs lhsOffset lhsMax RL rhs m rhsMax shift result)
      ⟨le_rfl, by decide⟩
      (fun u hu => hdl (lhsMax - u) (by omega) (by omega))
      (fun u hu => hrange m (by omega) (RL - (shift + m) - u) (by omega)
        (by omega))).1
  · intro m t hm ht
    rw [(hC m (by omega)).1]
    refine (innerLoop_range BASE9 lhs (rhs (rhsMax - m)) (by decide)
      (hdr (rhsMax - m) (by omega) (by omega)) t lhsMax (RL - (shift + m)) 0
      (outerLoopC BASE9 lhs lhsOffset lhsMax RL rhs m rhsMax shift 0 result).2
      ⟨le_rfl, by decide⟩
      (fun u hu => hdl (lhsMax - u) (by omega) (by omega))
      (fun u hu => (hC m (by omega)).2 (RL - (shift + m) - u) (by omega)
        (by omega))).1

/-- Witness for C5: boundary digits `BASE9 - 1` on a one-by-one multiply:
the carry after the single inner step of row 0 is in range, the computed
kernel's carry is 0 after the row, and both touched cells are valid digits. -/
theorem c5_carry_bounded_witness :
    (0 ≤ (innerLoop BASE9 (fun _ => 999999999) ((fun _ => (999999999 : ℤ)) (0 - 0))
          1 0 (2 - (1 + 0)) 0
          (outerLoop BASE9 (fun _ => 999999999) 0 0 2 (fun _ => 999999999) 0 0 1
            (fun _ => 0))).1 ∧
        (innerLoop BASE9 (fun _ => 999999999) ((fun _ => (999999999 : ℤ)) (0 - 0))
          1 0 (2 - (1 + 0)) 0
          (outerLoop BASE9 (fun _ => 999999999) 0 0 2 (fun _ => 999999999) 0 0 1
            (fun _ => 0))).1 < BASE9) ∧
      (outerLoopC BASE9 (fun _ => 999999999) 0 0 2 (fun _ => 999999999) 1 0 1 0
          (fun _ => 0)).1 = 0 ∧
      (0 ≤ outerLoop BASE9 (fun _ => 999999999) 0 0 2 (fun _ => 999999999) 1 0 1
          (fun _ => 0) 0 ∧
        outerLoop BASE9 (fun _ => 999999999) 0 0 2 (fun _ => 999999999) 1 0 1
          (fun _ => 0) 0 < BASE9) ∧
      (0 ≤ (innerLoop BASE9 (fun _ => 999999999)
            ((fun _ => (999999999 : ℤ)) (0 - 0)) 1 0 (2 - (1 + 0))
            (outerLoopC BASE9 (fun _ => 999999999) 0 0 2 (fun _ => 999999999) 0 0 1
              0 (fun _ => 0)).1
            (outerLoopC BASE9 (fun _ => 999999999) 0 0 2 (fun _ => 999999999) 0 0 1
              0 (fun _ => 0)).2).1 ∧
        (innerLoop BASE9 (fun _ => 999999999)
            ((fun _ => (999999999 : ℤ)) (0 - 0)) 1 0 (2 - (1 + 0))
            (outerLoopC BASE9 (fun _ => 999999999) 0 0 2 (fun _ => 999999999) 0 0 1
              0 (fun _ => 0)).1
            (outerLoopC BASE9 (fun _ => 999999999) 0 0 2 (fun _ => 999999999) 0 0 1
              0 (fun _ => 0)).2).1 < BASE9) ∧
      (0 ≤ (outerLoopC BASE9 (fun _ => 999999999) 0 0 2 (fun _ => 999999999) 1 0 1
          0 (fun _ => 0)).2 0 ∧
        (outerLoopC BASE9 (fun _ => 999999999) 0 0 2 (fun _ => 999999999) 1 0 1
          0 (fun _ => 0)).2 0 < BASE9) := by
  have hd9 : ∀ x : ℤ, (0 : ℤ) ≤ x → x ≤ 0 →
      0 ≤ (fun _ => (999999999 : ℤ)) x ∧ (fun _ => (999999999 : ℤ)) x < BASE9 :=
    fun x h1 h2 => ⟨by show (0 : ℤ) ≤ 999999999; decide,
      by show (999999999 : ℤ) < BASE9; decide⟩
  have hz : ∀ x : ℤ, (2 : ℤ) - 1 - 1 + 1 - 1 ≤ x → x ≤ 2 - 1 →
      0 ≤ (fun _ => (0 : ℤ)) x ∧ (fun _ => (0 : ℤ)) x < BASE9 :=
    fun x h1 h2 => ⟨le_rfl, by show (0 : ℤ) < BASE9; decide⟩
  have h := c5_carry_bounded (fun _ => 999999999) (fun _ => 999999999) (fun _ => 0)
    0 0 0 0 2 1 1 1 le_rfl le_rfl (by decide) (by decide) hd9 hd9 hz
  exact ⟨h.1 0 1 (by omega) (by omega), h.2.1 1 le_rfl,
    h.2.2.1 1 le_rfl 0 (by decide) (by decide),
    h.2.2.2.1 0 1 (by omega) (by omega),
    h.2.2.2.2 1 le_rfl 0 (by decide) (by decide)⟩

/-- C3 as stated is false: two calls at distinct shifts whose footprints both
fit the accumulator can still interact destructively, because each row of a
call *assigns* its final carry over the target cell.  Concretely
(`resultLength = 4`, zero accumulator; call 1: `lhs = [1]`, `rhs = [1]`,
`shift = 2`; call 2: `lhs = [1]`, `rhs = [1]`, `shift = 1` — footprints
`[1,2]` and `[2,3]`, both inside `[0,4)`): call 2's final-carry assignment
zeroes cell 2, which held call 1's product digit.  The accumulator decodes to
`1` — exactly the result of the second call alone — instead of
`1*B^1 + 1*B^0` (or `1*B^2 + 1*B^1` on the other reading of the shift
exponent). -/
theorem c3_counterexample :
    runVal BASE9 (Int9N_multiplyCore (Int9N_multiplyCore (fun _ => 0) 4 2
        (fun _ => 1) 0 0 (fun _ => 1) 0 0) 4 1 (fun _ => 1) 0 0 (fun _ => 1) 0 0)
      0 4 = 1 ∧
      (1 : ℤ) ≠ 1 * 1 * 1000000000 ^ 1 + 1 * 1 * 1000000000 ^ 0 ∧
      (1 : ℤ) ≠ 1 * 1 * 1000000000 ^ 2 + 1 * 1 * 1000000000 ^ 1 := by
  exact ⟨by decide, by decide, by decide⟩

/-- C3 amended: two sequential calls into the same zero-initialized
accumulator at shifts whose product footprints are *disjoint* (both fitting
inside `[0, resultLength)`) leave the accumulator representing the arithmetic
sum of the two shifted products
`v1 * BASE^(shift1 - 1) + v2 * BASE^(shift2 - 1)`
(cell `resultLength - shift` has place value `BASE^(shift-1)`), not the
result of the second call alone. -/
theorem c3_amended (lhs1 rhs1 lhs2 rhs2 : Acc)
    (lo1 ro1 lo2 ro2 s1 s2 : ℤ) (L1 R1 L2 R2 N : ℕ)
    (hL1 : 1 ≤ L1) (hR1 : 1 ≤ R1) (hL2 : 1 ≤ L2) (hR2 : 1 ≤ R2)
    (hs1 : 1 ≤ s1) (hs2 : 1 ≤ s2)
    (hfit1 : 0 ≤ (N : ℤ) - s1 - R1 + 1 - L1)
    (hfit2 : 0 ≤ (N : ℤ) - s2 - R2 + 1 - L2)
    (hdisj : (N : ℤ) - s1 < (N : ℤ) - s2 - R2 + 1 - L2 ∨
      (N : ℤ) - s2 < (N : ℤ) - s1 - R1 + 1 - L1)
    (hdl1 : ∀ x : ℤ, lo1 ≤ x → x ≤ lo1 + L1 - 1 → 0 ≤ lhs1 x ∧ lhs1 x < BASE9)
    (hdr1 : ∀ x : ℤ, ro1 ≤ x → x ≤ ro1 + R1 - 1 → 0 ≤ rhs1 x ∧ rhs1 x < BASE9)
    (hdl2 : ∀ x : ℤ, lo2 ≤ x → x ≤ lo2 + L2 - 1 → 0 ≤ lhs2 x ∧ lhs2 x < BASE9)
    (hdr2 : ∀ x : ℤ, ro2 ≤ x → x ≤ ro2 + R2 - 1 → 0 ≤ rhs2 x ∧ rhs2 x < BASE9) :
    runVal BASE9 (Int9N_multiplyCore
        (Int9N_multiplyCore (fun _ => 0) N s1 lhs1 lo1 (lo1 + L1 - 1) rhs1 ro1
          (ro1 + R1 - 1))
        N s2 lhs2 lo2 (lo2 + L2 - 1) rhs2 ro2 (ro2 + R2 - 1)) 0 N =
      runVal BASE9 lhs1 lo1 L1 * runVal BASE9 rhs1 ro1 R1 *
          BASE9 ^ (s1 - 1).toNat +
        runVal BASE9 lhs2 lo2 L2 * runVal BASE9 rhs2 ro2 R2 *
          BASE9 ^ (s2 - 1).toNat := by
  rw [Int9N_multiplyCore_as_outer (fun _ => 0) N s1 lhs1 lo1 (lo1 + L1 - 1) rhs1
    ro1 (ro1 + R1 - 1) R1 (by omega)]
  set A1 := outerLoop BASE9 lhs1 lo1 (lo1 + (L1 : ℤ) - 1) N rhs1 R1
    (ro1 + (R1 : ℤ) - 1) s1 (fun _ => 0) with hA1
  rw [Int9N_multiplyCore_as_outer A1 N s2 lhs2 lo2 (lo2 + L2 - 1) rhs2 ro2
    (ro2 + R2 - 1) R2 (by omega)]
  set A2 := outerLoop BASE9 lhs2 lo2 (lo2 + (L2 : ℤ) - 1) N rhs2 R2
    (ro2 + (R2 : ℤ) - 1) s2 A1 with hA2
  have hspec1 := outerLoop_spec BASE9 lhs1 lo1 (lo1 + (L1 : ℤ) - 1) N rhs1 L1
    (by decide) (by omega) (by omega) hdl1 R1 (ro1 + (R1 : ℤ) - 1) s1 (fun _ => 0)
    (fun x hx1 hx2 => hdr1 x (by omega) (by omega))
    (fun x hx1 hx2 => ⟨le_rfl, by show (0 : ℤ) < BASE9; decide⟩)
  have hframe1 := outerLoop_frame BASE9 lhs1 lo1 (lo1 + (L1 : ℤ) - 1) N rhs1 L1
    (by omega) R1 (ro1 + (R1 : ℤ) - 1) s1 (fun _ => 0)
  rw [← hA1] at hspec1 hframe1
  have hA1zero : ∀ x : ℤ, x < (N : ℤ) - s1 - R1 + 1 - L1 ∨ (N : ℤ) - s1 < x →
      A1 x = 0 := by
    intro x hx
    rw [hframe1 x (by omega)]
  have hspec2 := outerLoop_spec BASE9 lhs2 lo2 (lo2 + (L2 : ℤ) - 1) N rhs2 L2
    (by decide) (by omega) (by omega) hdl2 R2 (ro2 + (R2 : ℤ) - 1) s2 A1
    (fun x hx1 hx2 => hdr2 x (by omega) (by omega))
    (fun x hx1 hx2 => by
      rw [hA1zero x (by omega)]
      exact ⟨le_rfl, by show (0 : ℤ) < BASE9; decide⟩)
  have hframe2 := outerLoop_frame BASE9 lhs2 lo2 (lo2 + (L2 : ℤ) - 1) N rhs2 L2
    (by omega) R2 (ro2 + (R2 : ℤ) - 1) s2 A1
  rw [← hA2] at hspec2 hframe2
  -- the decoded value of each footprint
  have hv1 : runVal BASE9 A2 ((N : ℤ) - s1 - R1 + 1 - L1) (L1 + R1) =
      runVal BASE9 lhs1 lo1 L1 * runVal BASE9 rhs1 ro1 R1 := by
    have hcongA2 : runVal BASE9 A2 ((N : ℤ) - s1 - R1 + 1 - L1) (L1 + R1) =
        runVal BASE9 A1 ((N : ℤ) - s1 - R1 + 1 - L1) (L1 + R1) := by
      refine runVal_congr fun t ht => ?_
      have ht' : (t : ℤ) < L1 + R1 := by exact_mod_cast ht
      push_cast at ht'
      exact hframe2 _ (by omega)
    rw [hcongA2]
    have h := hspec1.2
    rw [show ((N : ℤ) - s1 - (R1 : ℕ) + 1 - (L1 : ℕ)) =
      (N : ℤ) - s1 - R1 + 1 - L1 from by ring] at h
    rw [h]
    have hz1 : runVal BASE9 (fun _ => (0 : ℤ)) ((N : ℤ) - s1 - L1 + 1) L1 = 0 :=
      runVal_zero_run fun t ht => rfl
    rw [hz1, zero_add,
      show ((ro1 + (R1 : ℤ) - 1) - (R1 : ℕ) + 1) = ro1 from by ring]
  have hv2 : runVal BASE9 A2 ((N : ℤ) - s2 - R2 + 1 - L2) (L2 + R2) =
      runVal BASE9 lhs2 lo2 L2 * runVal BASE9 rhs2 ro2 R2 := by
    have h := hspec2.2
    rw [show ((N : ℤ) - s2 - (R2 : ℕ) + 1 - (L2 : ℕ)) =
      (N : ℤ) - s2 - R2 + 1 - L2 from by ring] at h
    rw [h]
    have hz2 : runVal BASE9 A1 ((N : ℤ) - s2 - (L2 : ℕ) + 1) L2 = 0 := by
      refine runVal_zero_run fun t ht => ?_
      have ht' : (t : ℤ) < L2 := by exact_mod_cast ht
      exact hA1zero _ (by omega)
    rw [hz2, zero_add,
      show ((ro2 + (R2 : ℤ) - 1) - (R2 : ℕ) + 1) = ro2 from by ring]
  -- cells outside both footprints are zero
  have hzero : ∀ x : ℤ, 0 ≤ x → x < (N : ℤ) →
      (x < (N : ℤ) - s1 - R1 + 1 - L1 ∨ (N : ℤ) - s1 < x) →
      (x < (N : ℤ) - s2 - R2 + 1 - L2 ∨ (N : ℤ) - s2 < x) → A2 x = 0 := by
    intro x _ _ hx1 hx2
    rw [hframe2 x (by omega)]
    exact hA1zero x (by omega)
  rcases hdisj with hord | hord
  · -- footprint 1 is at lower indices (more significant)
    have hblocks := runVal_two_blocks BASE9 A2 0 N ((N : ℤ) - s1 - R1 + 1 - L1)
      (L1 + R1) ((N : ℤ) - s2 - R2 + 1 - L2) (L2 + R2) (by omega)
      (by push_cast; omega) (by push_cast; omega)
      (fun x hx1 hx2 hx3 => by
        push_cast at hx2 hx3
        exact hzero x hx1 (by omega) (by omega) (by omega))
    rw [hblocks, hv1, hv2]
    rw [show ((0 : ℤ) + (N : ℕ) - (((N : ℤ) - s1 - R1 + 1 - L1) +
        ((L1 + R1 : ℕ) : ℤ))).toNat = (s1 - 1).toNat from by push_cast; omega]
    rw [show ((0 : ℤ) + (N : ℕ) - (((N : ℤ) - s2 - R2 + 1 - L2) +
        ((L2 + R2 : ℕ) : ℤ))).toNat = (s2 - 1).toNat from by push_cast; omega]
  · -- footprint 2 is at lower indices (more significant)
    have hblocks := runVal_two_blocks BASE9 A2 0 N ((N : ℤ) - s2 - R2 + 1 - L2)
      (L2 + R2) ((N : ℤ) - s1 - R1 + 1 - L1) (L1 + R1) (by omega)
      (by push_cast; omega) (by push_cast; omega)
      (fun x hx1 hx2 hx3 => by
        push_cast at hx2 hx3
        exact hzero x hx1 (by omega) (by omega) (by omega))
    rw [hblocks, hv1, hv2]
    rw [show ((0 : ℤ) + (N : ℕ) - (((N : ℤ) - s1 - R1 + 1 - L1) +
        ((L1 + R1 : ℕ) : ℤ))).toNat = (s1 - 1).toNat from by push_cast; omega]
    rw [show ((0 : ℤ) + (N : ℕ) - (((N : ℤ) - s2 - R2 + 1 - L2) +
        ((L2 + R2 : ℕ) : ℤ))).toNat = (s2 - 1).toNat from by push_cast; omega]
    ring

/-- Witness for C3 amended: `2*3` at shift 3 and `4*5` at shift 1 into a
zero 4-cell accumulator, with disjoint footprints `[0,1]` and `[2,3]`:
the decode is `6·BASE9² + 20`. -/
theorem c3_amended_witness :
    runVal BASE9 (Int9N_multiplyCore (Int9N_multiplyCore (fun _ => 0)
        ((4 : ℕ) : ℤ) 3 (fun _ => 2) 0 (0 + ((1 : ℕ) : ℤ) - 1) (fun _ => 3) 0
        (0 + ((1 : ℕ) : ℤ) - 1)) ((4 : ℕ) : ℤ) 1 (fun _ => 4) 0
        (0 + ((1 : ℕ) : ℤ) - 1) (fun _ => 5) 0 (0 + ((1 : ℕ) : ℤ) - 1)) 0 4 =
      runVal BASE9 (fun _ => 2) 0 1 * runVal BASE9 (fun _ => 3) 0 1 *
          BASE9 ^ ((3 : ℤ) - 1).toNat +
        runVal BASE9 (fun _ => 4) 0 1 * runVal BASE9 (fun _ => 5) 0 1 *
          BASE9 ^ ((1 : ℤ) - 1).toNat := by
  exact c3_amended (fun _ => 2) (fun _ => 3) (fun _ => 4) (fun _ => 5) 0 0 0 0 3 1
    1 1 1 1 4 le_rfl le_rfl le_rfl le_rfl (by decide) (by decide) (by decide)
    (by decide) (Or.inl (by decide))
    (fun x h1 h2 => ⟨by show (0 : ℤ) ≤ 2; decide, by show (2 : ℤ) < BASE9; decide⟩)
    (fun x h1 h2 => ⟨by show (0 : ℤ) ≤ 3; decide, by show (3 : ℤ) < BASE9; decide⟩)
    (fun x h1 h2 => ⟨by show (0 : ℤ) ≤ 4; decide, by show (4 : ℤ) < BASE9; decide⟩)
    (fun x h1 h2 => ⟨by show (0 : ℤ) ≤ 5; decide, by show (5 : ℤ) < BASE9; decide⟩)

end Compint
